import Mathlib

/-!
Verification of the SEL (Sourceful Energy Language) core: a shallow embedding
of the lexer, parser, compiler, runtime evaluator, history store and scheduler
from `packages/sel-lang/src`, together with theorems settling the specified
properties.

Modelling conventions:
* Rust `f64` is modelled as `ℚ`. Every numeric literal and arithmetic step
  exercised by a verified claim is exactly representable in binary64, where
  rational and floating-point arithmetic coincide; the two square-root sites
  are handled exactly (see `sqrtGtQ`) or documented where they are not.
* Rust `u64`/`u8`/`usize` are modelled as `ℕ`; `saturating_sub` is Nat
  subtraction.
* `Instant` (the monotonic clock) is modelled as a `ℕ` count of nanoseconds
  passed in explicitly; `Duration::from_secs s` is `s * 1000000000`.
* `SystemTime` readings (wall clock) are passed in explicitly as `ℕ`
  milliseconds or seconds.
* `HashMap`/`HashSet` are modelled as association lists (insert = prepend,
  lookup = first match) and `Finset`.
-/


/-- ASCII uppercase of a string (`str::to_uppercase` on the ASCII inputs the
claims use). `String.toUpper` itself is not kernel-reducible, so the map is
spelled out. -/
def strToUpper (s : String) : String := String.mk (s.data.map Char.toUpper)

/-- ASCII lowercase of a string (`str::to_lowercase` on ASCII input). -/
def strToLower (s : String) : String := String.mk (s.data.map Char.toLower)

/-- `error.rs`: the closed error enum `SELError`. -/
inductive SELError where
  | LexerError (message : String) (line column : ℕ)
  | ParserError (message : String) (line column : ℕ)
  | CompilerError (message : String)
  | ValidationError (message : String)
  | RuntimeError (message : String)
deriving DecidableEq, Repr

/-- `error.rs`: `SourceLocation { line, column, offset }`. -/
structure SourceLocation where
  line : ℕ
  column : ℕ
  offset : ℕ
deriving DecidableEq, Repr

instance : Inhabited SourceLocation := ⟨⟨1, 1, 0⟩⟩

/-- `ast.rs`: the closed `Metric` enum of the seven telemetry signals. -/
inductive Metric where
  | PvPower | BatteryPower | BatterySoc | GridPower | GridImport | GridExport | LoadPower
deriving DecidableEq, Repr

/-- `ast.rs`: `Metric::as_str`, the canonical snake_case name. -/
def Metric.as_str : Metric → String
  | .PvPower => "pv_power"
  | .BatteryPower => "battery_power"
  | .BatterySoc => "battery_soc"
  | .GridPower => "grid_power"
  | .GridImport => "grid_import"
  | .GridExport => "grid_export"
  | .LoadPower => "load_power"

/-- `ast.rs`: `Metric::from_str` (the caller lowercases; here the match is on
the already-lowercased string, as in the source). -/
def Metric.from_str (s : String) : Option Metric :=
  match strToLower s with
  | "pv_power" => some .PvPower
  | "battery_power" => some .BatteryPower
  | "battery_soc" => some .BatterySoc
  | "grid_power" => some .GridPower
  | "grid_import" => some .GridImport
  | "grid_export" => some .GridExport
  | "load_power" => some .LoadPower
  | _ => none

/-- Rust `{:?}` (Debug) rendering of a `Metric`, used by `generate_webhook_body`. -/
def Metric.debugStr : Metric → String
  | .PvPower => "PvPower"
  | .BatteryPower => "BatteryPower"
  | .BatterySoc => "BatterySoc"
  | .GridPower => "GridPower"
  | .GridImport => "GridImport"
  | .GridExport => "GridExport"
  | .LoadPower => "LoadPower"

/-- `ast.rs`: the `Function` enum of aggregate functions (named
`SELFunction`: `Function` clashes with Mathlib). -/
inductive SELFunction where
  | Avg | Median | Sum | Min | Max | Count | Stddev | Trend | Percentile
deriving DecidableEq, Repr

/-- `ast.rs`: `Function::from_str` (match on the uppercased text). -/
def SELFunction.from_str (s : String) : Option SELFunction :=
  match strToUpper s with
  | "AVG" => some .Avg
  | "MEDIAN" => some .Median
  | "SUM" => some .Sum
  | "MIN" => some .Min
  | "MAX" => some .Max
  | "COUNT" => some .Count
  | "STDDEV" => some .Stddev
  | "TREND" => some .Trend
  | "PERCENTILE" => some .Percentile
  | _ => none

/-- `ast.rs`: `ComparisonOp`. -/
inductive ComparisonOp where
  | Equal | NotEqual | LessThan | LessThanOrEqual | GreaterThan | GreaterThanOrEqual
deriving DecidableEq, Repr

/-- `ast.rs`: `LogicalOp`. -/
inductive LogicalOp where
  | And | Or | Not
deriving DecidableEq, Repr

/-- `ast.rs`: `TrendDirection`. -/
inductive TrendDirection where
  | Rising | Falling | Stable
deriving DecidableEq, Repr

/-- `ast.rs`: `BinaryOp`. -/
inductive BinaryOp where
  | Add | Subtract | Multiply | Divide | Modulo
deriving DecidableEq, Repr

/-- `ast.rs`: `CalendarFrequency`. -/
inductive CalendarFrequency where
  | Daily | Weekly | Monthly | Yearly
deriving DecidableEq, Repr

/-- `ast.rs`: `TimeOfDay { hour, minute }` (`u8` fields as `ℕ`). -/
structure TimeOfDay where
  hour : ℕ
  minute : ℕ
deriving DecidableEq, Repr

/-- `ast.rs`: the tagged `Value` enum. `f64` payloads are modelled as `ℚ`;
the `TimeRange` field `end` is a Lean keyword, renamed `stop`. -/
inductive Value where
  | Number (n : ℚ)
  | Percent (p : ℚ)
  | Power (watts : ℚ)
  | Energy (watt_hours : ℚ)
  | Duration (seconds : ℕ)
  | Time (hour minute : ℕ)
  | TimeRange (start stop : TimeOfDay)
  | String (s : String)
deriving DecidableEq, Repr

/-- `ast.rs`: `Expression`. The struct wrappers (`MetricExpr`, `VariableRef`,
`LiteralExpr`, `FunctionCall`, `BinaryExpr`) are inlined into constructor
arguments; `FunctionCall.args` is the argument list and `period_seconds` the
optional aggregate period. -/
inductive Expression where
  | Metric (metric : Metric)
  | Variable (name : String)
  | Literal (value : Value)
  | Function (name : SELFunction) (args : List Expression) (period_seconds : Option ℕ)
  | Binary (op : BinaryOp) (left right : Expression)

/-- `ast.rs`: `Condition`, with the struct wrappers inlined (the
`TimeWindow` field `end` is a Lean keyword, renamed `stop`). -/
inductive Condition where
  | Comparison (left : Expression) (op : ComparisonOp) (right : Expression)
  | Logical (op : LogicalOp) (conditions : List Condition)
  | Trend (metric : Metric) (direction : TrendDirection) (threshold_per_hour : Option ℚ)
  | Anomaly (metric : Metric) (period_seconds : ℕ) (sensitivity : ℚ)
  | TimeWindow (start stop : TimeOfDay)

/-- `ast.rs`: `TemplatePart`. -/
inductive TemplatePart where
  | Text (text : String)
  | Expression (expr : Expression)

/-- `ast.rs`: `TemplateString`. -/
structure TemplateString where
  parts : List TemplatePart

/-- `ast.rs`: `TemplateString::from_literal`. -/
def TemplateString.from_literal (s : String) : TemplateString :=
  ⟨[TemplatePart.Text s]⟩

/-- `ast.rs`: `NotifyChannel`. -/
inductive NotifyChannel where
  | Push | Email | Sms
deriving DecidableEq, Repr

/-- `ast.rs`: `NotifyPriority`. -/
inductive NotifyPriority where
  | Low | Normal | High | Critical
deriving DecidableEq, Repr

/-- `ast.rs`: `HttpMethod`. -/
inductive HttpMethod where
  | Get | Post | Put | Delete
deriving DecidableEq, Repr

/-- `ast.rs`: `LogLevel`. -/
inductive LogLevel where
  | Info | Warn | Error
deriving DecidableEq, Repr

/-- `ast.rs`: the tagged `Action` enum with the per-variant structs inlined
(named `SELAction` to avoid clashing with Mathlib). -/
inductive SELAction where
  | Notify (message : TemplateString) (channel : Option NotifyChannel)
      (priority : Option NotifyPriority)
  | Webhook (url : String) (method : Option HttpMethod)
      (headers : Option (List (String × String))) (body : Option TemplateString)
  | Log (message : TemplateString) (level : Option LogLevel)
  | SetVariable (name : String) (value : Expression)

/-- `ast.rs`: `CalendarSchedule`. The source fields `at` and `on` are Lean
keywords / Mathlib notation, so they are named `at_time` and `on_day` here. -/
structure CalendarSchedule where
  frequency : CalendarFrequency
  at_time : TimeOfDay
  on_day : Option ℕ
deriving DecidableEq, Repr

/-- `ast.rs`: the tagged `Schedule` enum (`IntervalSchedule` and
`CronSchedule` inlined). -/
inductive Schedule where
  | Interval (interval_seconds : ℕ)
  | Calendar (cal : CalendarSchedule)
  | Cron (expression : String)
deriving DecidableEq, Repr

/-- `ast.rs`: `EventRule`. -/
structure EventRule where
  id : String
  name : Option String
  condition : Condition
  actions : List SELAction
  cooldown_seconds : Option ℕ
  enabled : Bool

/-- `ast.rs`: `ScheduleRule`. -/
structure ScheduleRule where
  id : String
  name : Option String
  schedule : Schedule
  actions : List SELAction
  enabled : Bool

/-- `ast.rs`: the tagged `Rule` enum. -/
inductive Rule where
  | Event (rule : EventRule)
  | Schedule (rule : ScheduleRule)

/-- `ast.rs`: `Variable { name, value }`. -/
structure Variable where
  name : String
  value : Value

/-- `ast.rs`: `Program` (the source field `variables` is a Lean keyword, renamed `vars`). `Program::default()` has version "1.0" and empty lists. -/
structure Program where
  version : String
  vars : List Variable
  rules : List Rule

/-- `ast.rs`: `Program::default`. -/
def Program.default : Program := ⟨"1.0", [], []⟩

/-- `ast.rs`: the JSON `config` payload that `compile_action` builds with
`serde_json::json!`; modelled structurally as the data it serialises. -/
inductive CompiledActionConfig where
  | NotifyConfig (message : TemplateString) (channel : Option NotifyChannel)
      (priority : Option NotifyPriority)
  | WebhookConfig (url : String) (method : Option HttpMethod)
      (headers : Option (List (String × String))) (body : Option TemplateString)
  | LogConfig (message : TemplateString) (level : Option LogLevel)
  | SetVariableConfig (name : String) (value : Expression)

/-- `ast.rs`: `CompiledAction`. -/
structure CompiledAction where
  action_type : String
  config : CompiledActionConfig
  template_vars : List String

/-- `ast.rs`: `CompiledRuleType`. -/
inductive CompiledRuleType where
  | Event (condition : Condition)
  | Schedule (schedule : Schedule)

/-- `ast.rs`: `CompiledRule`. -/
structure CompiledRule where
  id : String
  name : Option String
  rule_type : CompiledRuleType
  enabled : Bool
  actions : List CompiledAction
  cooldown_seconds : Option ℕ

/-- `ast.rs`: `CompiledVariable` (normalized `f64` value as `ℚ`). -/
structure CompiledVariable where
  name : String
  value : ℚ
  original : Value

/-- `ast.rs`: `CompiledProgram`. The `required_metrics` field is a `Vec`
filled from a `HashSet` in unspecified order; it is modelled as the
`Finset` itself. The source field `variables` is renamed `vars`. -/
structure CompiledProgram where
  version : String
  compiled_at : String
  checksum : String
  vars : List CompiledVariable
  rules : List CompiledRule
  required_metrics : Finset Metric
  requires_history : Bool
  max_history_seconds : Option ℕ

/-- `compiler.rs`: the `Compiler` state (`required_metrics` accumulator and
`max_history_seconds` accumulator), threaded explicitly instead of `&mut self`. -/
structure Compiler where
  required_metrics : Finset Metric
  max_history_seconds : ℕ

/-- `compiler.rs`: `Compiler::new` (also the state right after the reset at
the top of `compile`). -/
def Compiler.new : Compiler := ⟨∅, 0⟩

/-- `compiler.rs`: `normalize_value`. -/
def normalize_value : Value → ℚ
  | .Number n => n
  | .Percent p => p / 100
  | .Power watts => watts
  | .Energy watt_hours => watt_hours
  | .Duration seconds => (seconds : ℚ)
  | .Time hour minute => (hour : ℚ) * 60 + (minute : ℚ)
  | .TimeRange start stop =>
      ((stop.hour : ℚ) * 60 + (stop.minute : ℚ)) - ((start.hour : ℚ) * 60 + (start.minute : ℚ))
  | .String _ => 0

/-- `compiler.rs`: `compile_variable`. -/
def compile_variable (v : Variable) : CompiledVariable :=
  ⟨v.name, normalize_value v.value, v.value⟩

mutual

/-- `compiler.rs`: `extract_metrics_from_expr` (the `&mut self` updates are
explicit state threading). -/
def extract_metrics_from_expr (c : Compiler) : Expression → Compiler
  | .Metric m => { c with required_metrics := insert m c.required_metrics }
  | .Function _ args period =>
      let c1 := extract_metrics_from_exprs c args
      match period with
      | some p => { c1 with max_history_seconds := max c1.max_history_seconds p }
      | none => c1
  | .Binary _ l r => extract_metrics_from_expr (extract_metrics_from_expr c l) r
  | .Variable _ => c
  | .Literal _ => c

/-- The `for arg in &f.args` loop of `extract_metrics_from_expr`, as a
left-to-right list traversal. -/
def extract_metrics_from_exprs (c : Compiler) : List Expression → Compiler
  | [] => c
  | e :: es => extract_metrics_from_exprs (extract_metrics_from_expr c e) es

end

mutual

/-- `compiler.rs`: `extract_metrics_from_condition`. -/
def extract_metrics_from_condition (c : Compiler) : Condition → Compiler
  | .Comparison left _ right =>
      extract_metrics_from_expr (extract_metrics_from_expr c left) right
  | .Logical _ conds => extract_metrics_from_conditions c conds
  | .Trend m _ _ =>
      { c with required_metrics := insert m c.required_metrics,
               max_history_seconds := max c.max_history_seconds 3600 }
  | .Anomaly m period _ =>
      { c with required_metrics := insert m c.required_metrics,
               max_history_seconds := max c.max_history_seconds period }
  | .TimeWindow _ _ => c

/-- The `for cond in &log.conditions` loop of `extract_metrics_from_condition`. -/
def extract_metrics_from_conditions (c : Compiler) : List Condition → Compiler
  | [] => c
  | cond :: cs => extract_metrics_from_conditions (extract_metrics_from_condition c cond) cs

end

mutual

/-- `compiler.rs`: `extract_vars_from_expr` (the `&mut Vec<String>` is an
explicit accumulator, pushed at the back as in the source). -/
def extract_vars_from_expr (e : Expression) (vars : List String) : List String :=
  match e with
  | .Variable name => vars ++ [name]
  | .Metric m => vars ++ [m.as_str]
  | .Binary _ l r => extract_vars_from_expr r (extract_vars_from_expr l vars)
  | .Function _ args _ => extract_vars_from_exprs args vars
  | .Literal _ => vars

/-- The `for arg in &f.args` loop of `extract_vars_from_expr`. -/
def extract_vars_from_exprs (es : List Expression) (vars : List String) : List String :=
  match es with
  | [] => vars
  | e :: rest => extract_vars_from_exprs rest (extract_vars_from_expr e vars)

end

/-- `compiler.rs`: `extract_template_vars`. -/
def extract_template_vars (t : TemplateString) : List String :=
  t.parts.foldl
    (fun vars part =>
      match part with
      | .Expression expr => extract_vars_from_expr expr vars
      | .Text _ => vars)
    []

/-- `compiler.rs`: `compile_action` (infallible in the source: every arm
returns `Ok`). -/
def compile_action (a : SELAction) : CompiledAction :=
  match a with
  | .Notify message channel priority =>
      ⟨"notify", .NotifyConfig message channel priority, extract_template_vars message⟩
  | .Webhook url method headers body =>
      ⟨"webhook", .WebhookConfig url method headers body,
        (body.map extract_template_vars).getD []⟩
  | .Log message level =>
      ⟨"log", .LogConfig message level, extract_template_vars message⟩
  | .SetVariable name value =>
      ⟨"set_variable", .SetVariableConfig name value, []⟩

/-- `compiler.rs`: `compile_event_rule`. -/
def compile_event_rule (c : Compiler) (rule : EventRule) : Compiler × CompiledRule :=
  let c1 := extract_metrics_from_condition c rule.condition
  (c1,
    ⟨rule.id, rule.name, .Event rule.condition, rule.enabled,
      rule.actions.map compile_action, rule.cooldown_seconds⟩)

/-- `compiler.rs`: `compile_schedule_rule`. -/
def compile_schedule_rule (c : Compiler) (rule : ScheduleRule) : Compiler × CompiledRule :=
  (c,
    ⟨rule.id, rule.name, .Schedule rule.schedule, rule.enabled,
      rule.actions.map compile_action, none⟩)

/-- `compiler.rs`: `compile_rule`. -/
def compile_rule (c : Compiler) : Rule → Compiler × CompiledRule
  | .Event e => compile_event_rule c e
  | .Schedule s => compile_schedule_rule c s

/-- The `program.rules.iter().map(compile_rule).collect()` traversal of
`compile`, threading the compiler state left to right. -/
def compile_rules (c : Compiler) : List Rule → Compiler × List CompiledRule
  | [] => (c, [])
  | r :: rs =>
      let (c1, cr) := compile_rule c r
      let (c2, crs) := compile_rules c1 rs
      (c2, cr :: crs)

/-- `compiler.rs`: `compute_checksum`. The source feeds the version and the
variable and rule counts into `DefaultHasher`; the hash permutation itself is
not modelled, only that the checksum is a function of those three inputs. -/
def compute_checksum (p : Program) : String :=
  toString (p.version, p.vars.length, p.rules.length)

/-- `compiler.rs`: `chrono_now` (`format!("{}", secs)` of the Unix-seconds
wall clock, which is passed in explicitly). -/
def chrono_now (nowSecs : ℕ) : String := toString nowSecs

/-- `compiler.rs`: `Compiler::compile`. The wall-clock reading inside
`chrono_now` is an explicit `nowSecs` argument. The source returns
`Result`, but every path is `Ok`, so the model is total. -/
def compile (nowSecs : ℕ) (p : Program) : CompiledProgram :=
  let vars := p.vars.map compile_variable
  let (cend, rules) := compile_rules Compiler.new p.rules
  let requires_history := decide (0 < cend.max_history_seconds)
  { version := p.version
    compiled_at := chrono_now nowSecs
    checksum := compute_checksum p
    vars := vars
    rules := rules
    required_metrics := cend.required_metrics
    requires_history := requires_history
    max_history_seconds := if requires_history then some cend.max_history_seconds else none }

mutual

/-- Specification-side reading of claim C1: the metrics occurring
syntactically in an expression (binary sub-expressions and aggregate-function
arguments included). -/
def specExprMetrics : Expression → Finset Metric
  | .Metric m => {m}
  | .Function _ args _ => specExprsMetrics args
  | .Binary _ l r => specExprMetrics l ∪ specExprMetrics r
  | .Variable _ => ∅
  | .Literal _ => ∅

/-- Metrics occurring in a list of expressions. -/
def specExprsMetrics : List Expression → Finset Metric
  | [] => ∅
  | e :: es => specExprMetrics e ∪ specExprsMetrics es

end

mutual

/-- Specification-side reading of claim C1: the metrics occurring
syntactically in a condition (comparison sides, logical children, trend and
anomaly metrics). -/
def specCondMetrics : Condition → Finset Metric
  | .Comparison l _ r => specExprMetrics l ∪ specExprMetrics r
  | .Logical _ conds => specCondsMetrics conds
  | .Trend m _ _ => {m}
  | .Anomaly m _ _ => {m}
  | .TimeWindow _ _ => ∅

/-- Metrics occurring in a list of conditions. -/
def specCondsMetrics : List Condition → Finset Metric
  | [] => ∅
  | cond :: cs => specCondMetrics cond ∪ specCondsMetrics cs

end

/-- Metrics reachable from a rule's condition (schedule rules have no
condition). -/
def specRuleMetrics : Rule → Finset Metric
  | .Event er => specCondMetrics er.condition
  | .Schedule _ => ∅

/-- Specification-side reading of claim C1 for a whole program: the distinct
metrics reachable from any rule's condition. -/
def specProgramMetrics (p : Program) : Finset Metric :=
  p.rules.foldr (fun r acc => specRuleMetrics r ∪ acc) ∅

mutual

/-- The history demand of an expression: the largest explicit aggregate
period occurring in it (0 when none). -/
def specExprHistory : Expression → ℕ
  | .Metric _ => 0
  | .Function _ args period => max (specExprsHistory args) (period.getD 0)
  | .Binary _ l r => max (specExprHistory l) (specExprHistory r)
  | .Variable _ => 0
  | .Literal _ => 0

/-- History demand of a list of expressions. -/
def specExprsHistory : List Expression → ℕ
  | [] => 0
  | e :: es => max (specExprHistory e) (specExprsHistory es)

end

mutual

/-- The history demand of a condition: explicit aggregate periods, anomaly
periods, and 3600 for any trend. -/
def specCondHistory : Condition → ℕ
  | .Comparison l _ r => max (specExprHistory l) (specExprHistory r)
  | .Logical _ conds => specCondsHistory conds
  | .Trend _ _ _ => 3600
  | .Anomaly _ period _ => period
  | .TimeWindow _ _ => 0

/-- History demand of a list of conditions. -/
def specCondsHistory : List Condition → ℕ
  | [] => 0
  | cond :: cs => max (specCondHistory cond) (specCondsHistory cs)

end

/-- History demand of a rule (only event-rule conditions are walked by the
compiler). -/
def specRuleHistory : Rule → ℕ
  | .Event er => specCondHistory er.condition
  | .Schedule _ => 0

/-- History demand of a program's rule list. -/
def specRulesHistory (rs : List Rule) : ℕ :=
  rs.foldr (fun r acc => max (specRuleHistory r) acc) 0

mutual

theorem extract_metrics_from_expr_eq (c : Compiler) (e : Expression) :
    extract_metrics_from_expr c e =
      ⟨c.required_metrics ∪ specExprMetrics e,
        max c.max_history_seconds (specExprHistory e)⟩ := by
  cases e with
  | Metric m =>
      simp only [extract_metrics_from_expr, specExprMetrics, specExprHistory]
      refine congrArg₂ Compiler.mk ?_ ?_
      · rw [Finset.insert_eq, Finset.union_comm]
      · omega
  | Function n args period =>
      have h := extract_metrics_from_exprs_eq c args
      cases period with
      | none =>
          simp only [extract_metrics_from_expr, h, specExprMetrics, specExprHistory,
            Option.getD_none]
          refine congrArg₂ Compiler.mk rfl ?_
          omega
      | some p =>
          simp only [extract_metrics_from_expr, h, specExprMetrics, specExprHistory,
            Option.getD_some]
          refine congrArg₂ Compiler.mk rfl ?_
          omega
  | Binary op l r =>
      rw [extract_metrics_from_expr, extract_metrics_from_expr_eq c l,
        extract_metrics_from_expr_eq _ r]
      simp only [specExprMetrics, specExprHistory]
      refine congrArg₂ Compiler.mk ?_ ?_
      · rw [Finset.union_assoc]
      · omega
  | Variable name => simp [extract_metrics_from_expr, specExprMetrics, specExprHistory]
  | Literal v => simp [extract_metrics_from_expr, specExprMetrics, specExprHistory]

theorem extract_metrics_from_exprs_eq (c : Compiler) (es : List Expression) :
    extract_metrics_from_exprs c es =
      ⟨c.required_metrics ∪ specExprsMetrics es,
        max c.max_history_seconds (specExprsHistory es)⟩ := by
  cases es with
  | nil => simp [extract_metrics_from_exprs, specExprsMetrics, specExprsHistory]
  | cons e rest =>
      rw [extract_metrics_from_exprs, extract_metrics_from_expr_eq c e,
        extract_metrics_from_exprs_eq _ rest]
      simp only [specExprsMetrics, specExprsHistory]
      refine congrArg₂ Compiler.mk ?_ ?_
      · rw [Finset.union_assoc]
      · omega

end

mutual

theorem extract_metrics_from_condition_eq (c : Compiler) (cond : Condition) :
    extract_metrics_from_condition c cond =
      ⟨c.required_metrics ∪ specCondMetrics cond,
        max c.max_history_seconds (specCondHistory cond)⟩ := by
  cases cond with
  | Comparison l op r =>
      rw [extract_metrics_from_condition, extract_metrics_from_expr_eq c l,
        extract_metrics_from_expr_eq _ r]
      simp only [specCondMetrics, specCondHistory]
      refine congrArg₂ Compiler.mk ?_ ?_
      · rw [Finset.union_assoc]
      · omega
  | Logical op conds =>
      rw [extract_metrics_from_condition, extract_metrics_from_conditions_eq c conds]
      simp [specCondMetrics, specCondHistory]
  | Trend m dir th =>
      simp only [extract_metrics_from_condition, specCondMetrics, specCondHistory]
      refine congrArg₂ Compiler.mk ?_ rfl
      rw [Finset.insert_eq, Finset.union_comm]
  | Anomaly m period sens =>
      simp only [extract_metrics_from_condition, specCondMetrics, specCondHistory]
      refine congrArg₂ Compiler.mk ?_ rfl
      rw [Finset.insert_eq, Finset.union_comm]
  | TimeWindow s e =>
      simp [extract_metrics_from_condition, specCondMetrics, specCondHistory]

theorem extract_metrics_from_conditions_eq (c : Compiler) (cs : List Condition) :
    extract_metrics_from_conditions c cs =
      ⟨c.required_metrics ∪ specCondsMetrics cs,
        max c.max_history_seconds (specCondsHistory cs)⟩ := by
  cases cs with
  | nil => simp [extract_metrics_from_conditions, specCondsMetrics, specCondsHistory]
  | cons cond rest =>
      rw [extract_metrics_from_conditions, extract_metrics_from_condition_eq c cond,
        extract_metrics_from_conditions_eq _ rest]
      simp only [specCondsMetrics, specCondsHistory]
      refine congrArg₂ Compiler.mk ?_ ?_
      · rw [Finset.union_assoc]
      · omega

end

theorem compile_rule_fst_eq (c : Compiler) (r : Rule) :
    (compile_rule c r).1 =
      ⟨c.required_metrics ∪ specRuleMetrics r,
        max c.max_history_seconds (specRuleHistory r)⟩ := by
  cases r with
  | Event er =>
      simp [compile_rule, compile_event_rule, extract_metrics_from_condition_eq,
        specRuleMetrics, specRuleHistory]
  | Schedule sr =>
      simp [compile_rule, compile_schedule_rule, specRuleMetrics, specRuleHistory]

theorem compile_rules_fst_eq (rs : List Rule) (c : Compiler) :
    (compile_rules c rs).1 =
      ⟨c.required_metrics ∪ rs.foldr (fun r acc => specRuleMetrics r ∪ acc) ∅,
        max c.max_history_seconds (specRulesHistory rs)⟩ := by
  induction rs generalizing c with
  | nil => simp [compile_rules, specRulesHistory]
  | cons r rest ih =>
      simp only [compile_rules, compile_rule_fst_eq, List.foldr_cons, specRulesHistory,
        ih]
      refine congrArg₂ Compiler.mk ?_ ?_
      · rw [Finset.union_assoc]
      · simp only [specRulesHistory] at *
        omega

/-- C1: for every `Program` (in particular every program accepted by the
parser), compiling yields a `CompiledProgram` whose `required_metrics` is
exactly the set of distinct metrics syntactically reachable from any rule's
condition — comparison sides, logical children, trend and anomaly metrics,
binary sub-expressions and aggregate-function arguments — with set semantics. -/
theorem C1_required_metrics_exact (nowSecs : ℕ) (p : Program) :
    (compile nowSecs p).required_metrics = specProgramMetrics p := by
  simp [compile, compile_rules_fst_eq, specProgramMetrics, Compiler.new]

mutual

/-- Amended reading of claim C5 at expression level: the expression contains
an aggregate function call with an explicit positive period. -/
def exprNeedsHistory : Expression → Bool
  | .Metric _ => false
  | .Function _ args period =>
      exprsNeedHistory args ||
        (match period with
         | some p => decide (0 < p)
         | none => false)
  | .Binary _ l r => exprNeedsHistory l || exprNeedsHistory r
  | .Variable _ => false
  | .Literal _ => false

/-- Amended C5 over a list of expressions. -/
def exprsNeedHistory : List Expression → Bool
  | [] => false
  | e :: es => exprNeedsHistory e || exprsNeedHistory es

end

mutual

/-- Amended reading of claim C5 at condition level: the condition contains a
Trend, an Anomaly with positive period, or an aggregate call with an explicit
positive period. -/
def condNeedsHistory : Condition → Bool
  | .Comparison l _ r => exprNeedsHistory l || exprNeedsHistory r
  | .Logical _ conds => condsNeedHistory conds
  | .Trend _ _ _ => true
  | .Anomaly _ period _ => decide (0 < period)
  | .TimeWindow _ _ => false

/-- Amended C5 over a list of conditions. -/
def condsNeedHistory : List Condition → Bool
  | [] => false
  | cond :: cs => condNeedsHistory cond || condsNeedHistory cs

end

/-- Amended C5 at rule level (only event-rule conditions are walked). -/
def ruleNeedsHistory : Rule → Bool
  | .Event er => condNeedsHistory er.condition
  | .Schedule _ => false

/-- Amended C5 at program level. -/
def programNeedsHistory (p : Program) : Bool :=
  p.rules.any ruleNeedsHistory

mutual

theorem specExprHistory_pos_iff (e : Expression) :
    0 < specExprHistory e ↔ exprNeedsHistory e = true := by
  cases e with
  | Metric m => simp [specExprHistory, exprNeedsHistory]
  | Function n args period =>
      have h := specExprsHistory_pos_iff args
      cases period with
      | none =>
          simp only [specExprHistory, exprNeedsHistory, Option.getD_none, Bool.or_false]
          constructor
          · intro hp
            exact h.mp (by omega)
          · intro hp
            have := h.mpr hp
            omega
      | some p =>
          simp only [specExprHistory, exprNeedsHistory, Option.getD_some, Bool.or_eq_true,
            decide_eq_true_eq]
          rw [← h]
          omega
  | Binary op l r =>
      have hl := specExprHistory_pos_iff l
      have hr := specExprHistory_pos_iff r
      simp only [specExprHistory, exprNeedsHistory, Bool.or_eq_true]
      rw [← hl, ← hr]
      omega
  | Variable name => simp [specExprHistory, exprNeedsHistory]
  | Literal v => simp [specExprHistory, exprNeedsHistory]

theorem specExprsHistory_pos_iff (es : List Expression) :
    0 < specExprsHistory es ↔ exprsNeedHistory es = true := by
  cases es with
  | nil => simp [specExprsHistory, exprsNeedHistory]
  | cons e rest =>
      have h1 := specExprHistory_pos_iff e
      have h2 := specExprsHistory_pos_iff rest
      simp only [specExprsHistory, exprsNeedHistory, Bool.or_eq_true]
      rw [← h1, ← h2]
      omega

end

mutual

theorem specCondHistory_pos_iff (cond : Condition) :
    0 < specCondHistory cond ↔ condNeedsHistory cond = true := by
  cases cond with
  | Comparison l op r =>
      have hl := specExprHistory_pos_iff l
      have hr := specExprHistory_pos_iff r
      simp only [specCondHistory, condNeedsHistory, Bool.or_eq_true]
      rw [← hl, ← hr]
      omega
  | Logical op conds =>
      simpa [specCondHistory, condNeedsHistory] using specCondsHistory_pos_iff conds
  | Trend m dir th => simp [specCondHistory, condNeedsHistory]
  | Anomaly m period sens => simp [specCondHistory, condNeedsHistory]
  | TimeWindow s e => simp [specCondHistory, condNeedsHistory]

theorem specCondsHistory_pos_iff (cs : List Condition) :
    0 < specCondsHistory cs ↔ condsNeedHistory cs = true := by
  cases cs with
  | nil => simp [specCondsHistory, condsNeedHistory]
  | cons cond rest =>
      have h1 := specCondHistory_pos_iff cond
      have h2 := specCondsHistory_pos_iff rest
      simp only [specCondsHistory, condsNeedHistory, Bool.or_eq_true]
      rw [← h1, ← h2]
      omega

end

theorem specRulesHistory_pos_iff (rs : List Rule) :
    0 < specRulesHistory rs ↔ rs.any ruleNeedsHistory = true := by
  induction rs with
  | nil => simp [specRulesHistory]
  | cons r rest ih =>
      have hr : 0 < specRuleHistory r ↔ ruleNeedsHistory r = true := by
        cases r with
        | Event er => simpa [specRuleHistory, ruleNeedsHistory] using
            specCondHistory_pos_iff er.condition
        | Schedule sr => simp [specRuleHistory, ruleNeedsHistory]
      simp only [specRulesHistory, List.foldr_cons, List.any_cons, Bool.or_eq_true]
      rw [← hr, ← ih]
      simp only [specRulesHistory]
      omega

mutual

/-- Claim C5 as stated, at expression level: the expression contains an
aggregate function call with an explicit period (of any size). -/
def exprHasExplicitPeriodAgg : Expression → Bool
  | .Metric _ => false
  | .Function _ args period => exprsHaveExplicitPeriodAgg args || period.isSome
  | .Binary _ l r => exprHasExplicitPeriodAgg l || exprHasExplicitPeriodAgg r
  | .Variable _ => false
  | .Literal _ => false

/-- Claim C5 as stated, over a list of expressions. -/
def exprsHaveExplicitPeriodAgg : List Expression → Bool
  | [] => false
  | e :: es => exprHasExplicitPeriodAgg e || exprsHaveExplicitPeriodAgg es

end

mutual

/-- Claim C5 as stated, at condition level: the condition contains an
aggregate call with an explicit period, an Anomaly, or a Trend. -/
def condHasHistoryConstruct : Condition → Bool
  | .Comparison l _ r => exprHasExplicitPeriodAgg l || exprHasExplicitPeriodAgg r
  | .Logical _ conds => condsHaveHistoryConstruct conds
  | .Trend _ _ _ => true
  | .Anomaly _ _ _ => true
  | .TimeWindow _ _ => false

/-- Claim C5 as stated, over a list of conditions. -/
def condsHaveHistoryConstruct : List Condition → Bool
  | [] => false
  | cond :: cs => condHasHistoryConstruct cond || condsHaveHistoryConstruct cs

end

/-- Claim C5 as stated, at program level: some rule's condition contains an
aggregate call with an explicit period, an Anomaly condition, or a Trend
condition. -/
def programHasHistoryConstruct (p : Program) : Bool :=
  p.rules.any fun r =>
    match r with
    | .Event er => condHasHistoryConstruct er.condition
    | .Schedule _ => false

/-- A program whose only rule has an Anomaly condition with
`period_seconds = 0` (producible from the source text
`ON pv_power IS UNUSUAL COMPARED TO 0s`). -/
def zeroPeriodAnomalyProgram : Program :=
  ⟨"1.0", [], [.Event ⟨"rule_0", none, .Anomaly .PvPower 0 2, [], none, true⟩]⟩

/-- C5 counterexample: this program contains an Anomaly condition, yet the
compiler sets `requires_history = false`, because a zero anomaly period
leaves `max_history_seconds` at 0. This refutes claim C5 as stated. -/
theorem C5_counterexample :
    programHasHistoryConstruct zeroPeriodAnomalyProgram = true ∧
      (compile 0 zeroPeriodAnomalyProgram).requires_history = false := by
  exact ⟨rfl, rfl⟩

/-- C5 (amended): the compiler sets `requires_history = true` iff some rule's
condition contains an aggregate function call with an explicit positive
period, an Anomaly condition with positive `period_seconds`, or a Trend
condition. -/
theorem C5_requires_history_iff (nowSecs : ℕ) (p : Program) :
    (compile nowSecs p).requires_history = programNeedsHistory p := by
  have h := specRulesHistory_pos_iff p.rules
  simp only [compile, compile_rules_fst_eq, Compiler.new, programNeedsHistory]
  apply Bool.eq_iff_iff.mpr
  simp only [decide_eq_true_eq, Nat.zero_max]
  exact h

/-- `f64::EPSILON`, exactly `2⁻⁵²`. -/
def epsilonF64 : ℚ := 1 / 2 ^ 52

/-- Truncation toward zero, as Rust `f64 as u64` / the truncation inside
`%` use it. -/
def qTrunc (q : ℚ) : ℤ := if 0 ≤ q then ⌊q⌋ else ⌈q⌉

/-- Rust `%` on `f64` (IEEE remainder toward zero):
`a - b * trunc(a / b)`. For `b = 0` the source yields NaN; `ℚ` division by
zero yields 0, so the model returns `a` there. No verified claim evaluates
`%`. -/
def qRem (a b : ℚ) : ℚ := a - b * (qTrunc (a / b) : ℚ)

/-- Exact model of the anomaly test `d > s * sqrt v` for `d ≥ 0 ≤ v`: when
`s < 0` and `0 < v` the right-hand side is negative and the test holds;
otherwise both sides are nonnegative and the test is equivalent to comparing
squares. This avoids the irrational intermediate `sqrt v`. -/
def sqrtGtQ (d s v : ℚ) : Bool :=
  if s < 0 ∧ 0 < v then true else decide (s ^ 2 * v < d ^ 2)

/-- Model of `f64::sqrt` for the value returned by the `STDDEV` aggregate.
An exact square root does not exist in `ℚ` in general; this is exact when
numerator and denominator are perfect squares and returns 0 otherwise. No
verified claim evaluates the `STDDEV` arm. -/
def sqrtQ (q : ℚ) : ℚ :=
  if 0 ≤ q ∧ ((q.num.toNat.sqrt : ℤ) ^ 2 = q.num ∧ q.den.sqrt ^ 2 = q.den)
  then (q.num.toNat.sqrt : ℚ) / (q.den.sqrt : ℚ)
  else 0

/-- Round half to even, the tie-breaking used by Rust `{:.d}` formatting. -/
def roundHalfEven (q : ℚ) : ℤ :=
  let f := ⌊q⌋
  let frac := q - (f : ℚ)
  if frac < 1 / 2 then f
  else if 1 / 2 < frac then f + 1
  else if f % 2 = 0 then f else f + 1

/-- Rust `format!` with `{:.d}`: fixed-point with `d` decimals, ties to even.
The `f64` signed zero (`-0.0` printing as "-0") is not representable in `ℚ`
and not modelled; no verified claim depends on numeric formatting. -/
def formatFixed (decimals : ℕ) (q : ℚ) : String :=
  let r := roundHalfEven (q * (10 ^ decimals : ℕ))
  let sign := if r < 0 then "-" else ""
  let a := r.natAbs
  if decimals = 0 then sign ++ toString a
  else
    let ip := a / 10 ^ decimals
    let fp := a % 10 ^ decimals
    let fpStr := toString fp
    let pad := String.mk (List.replicate (decimals - fpStr.length) '0')
    sign ++ toString ip ++ "." ++ pad ++ fpStr

/-- Rust `{}` (Display) of an `f64`, which prints the shortest round-tripping
decimal; modelled exactly for integral values and as `num/den` otherwise. No
verified claim depends on it (it only feeds `generate_webhook_body`). -/
def displayF64 (q : ℚ) : String :=
  if q.den = 1 then toString q.num else toString q.num ++ "/" ++ toString q.den

/-- `runtime.rs`: `format_metric_value`. The second arm covers the six power
metrics listed in the source match. -/
def format_metric_value (m : Metric) (value : ℚ) : String :=
  match m with
  | .BatterySoc => formatFixed 0 value ++ "%"
  | _ =>
      if 1000 ≤ |value| then formatFixed 1 (value / 1000) ++ " kW"
      else formatFixed 0 value ++ " W"

/-- `runtime.rs`: `MetricValues`, the current snapshot (one optional `f64`
per metric). -/
structure MetricValues where
  pv_power : Option ℚ
  battery_power : Option ℚ
  battery_soc : Option ℚ
  grid_power : Option ℚ
  grid_import : Option ℚ
  grid_export : Option ℚ
  load_power : Option ℚ
deriving DecidableEq, Repr

/-- `MetricValues::default()`: all metrics absent. -/
def MetricValues.empty : MetricValues := ⟨none, none, none, none, none, none, none⟩

/-- `runtime.rs`: `MetricValues::get`. -/
def MetricValues.get (mv : MetricValues) : Metric → Option ℚ
  | .PvPower => mv.pv_power
  | .BatteryPower => mv.battery_power
  | .BatterySoc => mv.battery_soc
  | .GridPower => mv.grid_power
  | .GridImport => mv.grid_import
  | .GridExport => mv.grid_export
  | .LoadPower => mv.load_power

/-- `runtime.rs`: `MetricValues::set`. -/
def MetricValues.set (mv : MetricValues) (m : Metric) (value : ℚ) : MetricValues :=
  match m with
  | .PvPower => { mv with pv_power := some value }
  | .BatteryPower => { mv with battery_power := some value }
  | .BatterySoc => { mv with battery_soc := some value }
  | .GridPower => { mv with grid_power := some value }
  | .GridImport => { mv with grid_import := some value }
  | .GridExport => { mv with grid_export := some value }
  | .LoadPower => { mv with load_power := some value }

/-- The fixed iteration order `[PvPower, …, LoadPower]` used by
`record_history` and `generate_webhook_body`. -/
def allMetrics : List Metric :=
  [.PvPower, .BatteryPower, .BatterySoc, .GridPower, .GridImport, .GridExport, .LoadPower]

/-- `runtime.rs`: `ActionResult`. -/
inductive ActionResult where
  | Notify (message : String)
  | Webhook (url body : String)
  | Log (message : String)
  | Skipped (reason : String)
deriving DecidableEq, Repr

/-- `runtime.rs`: `RuleResult`. `cooldown_remaining : Duration` is an `ℕ`
count of nanoseconds. -/
structure RuleResult where
  rule_id : String
  triggered : Bool
  actions : List ActionResult
  cooldown_remaining : Option ℕ
deriving DecidableEq, Repr

/-- `Duration::from_secs`, in the nanosecond model of durations/instants. -/
def durFromSecs (s : ℕ) : ℕ := s * 1000000000

/-- `runtime.rs`: `MetricHistory` (`HashMap<Metric, Vec<(u64, f64)>>` as a
total function with missing keys mapped to `[]`). -/
structure MetricHistory where
  data : Metric → List (ℕ × ℚ)
  max_age_seconds : ℕ

/-- `runtime.rs`: `MetricHistory::new`. -/
def MetricHistory.new (max_age_seconds : ℕ) : MetricHistory :=
  ⟨fun _ => [], max_age_seconds⟩

/-- `runtime.rs`: `MetricHistory::add` — push the sample, then retain only
entries with `ts ≥ timestamp_ms - max_age_seconds*1000` (`saturating_sub` is
Nat subtraction). -/
def MetricHistory.add (h : MetricHistory) (m : Metric) (timestamp_ms : ℕ) (value : ℚ) :
    MetricHistory :=
  let cutoff := timestamp_ms - h.max_age_seconds * 1000
  { h with
    data := Function.update h.data m
      (((h.data m) ++ [(timestamp_ms, value)]).filter fun e => cutoff ≤ e.1) }

/-- `runtime.rs`: `MetricHistory::get_range`. -/
def MetricHistory.get_range (h : MetricHistory) (m : Metric)
    (period_seconds current_time_ms : ℕ) : List ℚ :=
  let cutoff := current_time_ms - period_seconds * 1000
  ((h.data m).filter fun e => cutoff ≤ e.1).map (·.2)

/-- `runtime.rs`: `CooldownState` (`HashMap<String, Instant>`; instants are
`ℕ` nanoseconds, insert = prepend, lookup = first match). -/
structure CooldownState where
  last_triggered : List (String × ℕ)

/-- `runtime.rs`: `CooldownState::new`. -/
def CooldownState.new : CooldownState := ⟨[]⟩

/-- `runtime.rs`: `CooldownState::is_in_cooldown`
(`last.elapsed() < Duration::from_secs(cooldown_seconds)`; the monotonic
"now" is the explicit `nowMono`). -/
def CooldownState.is_in_cooldown (cs : CooldownState) (rule_id : String)
    (cooldown_seconds : ℕ) (nowMono : ℕ) : Bool :=
  match cs.last_triggered.lookup rule_id with
  | some last => decide (nowMono - last < durFromSecs cooldown_seconds)
  | none => false

/-- `runtime.rs`: `CooldownState::remaining`. The source reads the monotonic
clock a second time here; a single call of `evaluate_event_rule` is modelled
at one instant, so the same `nowMono` is used. -/
def CooldownState.remaining (cs : CooldownState) (rule_id : String)
    (cooldown_seconds : ℕ) (nowMono : ℕ) : Option ℕ :=
  match cs.last_triggered.lookup rule_id with
  | some last =>
      let elapsed := nowMono - last
      let cooldown := durFromSecs cooldown_seconds
      if elapsed < cooldown then some (cooldown - elapsed) else none
  | none => none

/-- `runtime.rs`: `CooldownState::trigger` (`Instant::now()` is the explicit
`nowMono`). -/
def CooldownState.trigger (cs : CooldownState) (rule_id : String) (nowMono : ℕ) :
    CooldownState :=
  ⟨(rule_id, nowMono) :: cs.last_triggered⟩

/-- `runtime.rs`: the `Runtime` engine state. The source field `variables`
is a Lean keyword, renamed `vars`. -/
structure Runtime where
  vars : List (String × ℚ)
  cooldowns : CooldownState
  history : MetricHistory
  previous_values : MetricValues

/-- `runtime.rs`: `Runtime::new` (7-day default history window). -/
def Runtime.new : Runtime :=
  ⟨[], CooldownState.new, MetricHistory.new (7 * 24 * 3600), MetricValues.empty⟩

/-- `runtime.rs`: `value_to_f64`, the evaluator's view (Percent kept on the
0–100 scale). -/
def value_to_f64 : Value → ℚ
  | .Number n => n
  | .Percent p => p
  | .Power watts => watts
  | .Energy watt_hours => watt_hours
  | .Duration seconds => (seconds : ℚ)
  | .Time hour minute => (hour : ℚ) * 60 + (minute : ℚ)
  | .TimeRange start stop =>
      ((stop.hour : ℚ) * 60 + (stop.minute : ℚ)) - ((start.hour : ℚ) * 60 + (start.minute : ℚ))
  | .String _ => 0

/-- `runtime.rs`: `Runtime::load_variables`. -/
def Runtime.load_variables (rt : Runtime) (p : Program) : Runtime :=
  { rt with
    vars := p.vars.foldl (fun acc v => (v.name, value_to_f64 v.value) :: acc) rt.vars }

/-- The `for metric in allMetrics` loop of `Runtime::record_history`: each
metric present in the snapshot is appended to its history. -/
def recordHistoryFold (metrics : MetricValues) (timestamp_ms : ℕ) (h : MetricHistory) :
    List Metric → MetricHistory
  | [] => h
  | m :: rest =>
      recordHistoryFold metrics timestamp_ms
        (match metrics.get m with
         | some value => h.add m timestamp_ms value
         | none => h)
        rest

/-- `runtime.rs`: `Runtime::record_history` — for each metric present in the
snapshot (in the fixed `allMetrics` order), append to its history. -/
def Runtime.record_history (rt : Runtime) (metrics : MetricValues) (timestamp_ms : ℕ) :
    Runtime :=
  { rt with history := recordHistoryFold metrics timestamp_ms rt.history allMetrics }

/-- Sorting used by `MEDIAN`/`PERCENTILE` (`sort_by(partial_cmp)`; `ℚ` is
totally ordered, so `partial_cmp` never falls back to `Ordering::Equal`). -/
def sortQ (values : List ℚ) : List ℚ :=
  values.mergeSort fun a b => decide (a ≤ b)

/-- `runtime.rs`: `Runtime::evaluate_function`. Only the first argument (a
metric reference) is consulted; the wall-clock reading inside the source is
the explicit `now_ms`. The `MIN`/`MAX` folds from `±∞` are modelled as folds
over the (here necessarily non-empty) list from its head, and indexing is
`getD` (in-bounds in every reachable case). -/
def Runtime.evaluate_function (rt : Runtime) (name : SELFunction)
    (args : List Expression) (period_seconds : Option ℕ) (metrics : MetricValues)
    (now_ms : ℕ) : Except SELError ℚ :=
  match args with
  | (Expression.Metric m) :: _ =>
      let period := period_seconds.getD 3600
      let values := rt.history.get_range m period now_ms
      if values.isEmpty then
        match metrics.get m with
        | some v => .ok v
        | none => .error (.RuntimeError "No data available")
      else
        .ok (match name with
          | .Avg => values.sum / (values.length : ℚ)
          | .Sum => values.sum
          | .Min =>
              match values with
              | [] => 0
              | v :: vs => vs.foldl min v
          | .Max =>
              match values with
              | [] => 0
              | v :: vs => vs.foldl max v
          | .Count => (values.length : ℚ)
          | .Median =>
              let sorted := sortQ values
              let mid := sorted.length / 2
              if sorted.length % 2 = 0 then (sorted.getD (mid - 1) 0 + sorted.getD mid 0) / 2
              else sorted.getD mid 0
          | .Stddev =>
              let mean := values.sum / (values.length : ℚ)
              let variance := (values.map fun v => (v - mean) ^ 2).sum / (values.length : ℚ)
              sqrtQ variance
          | .Trend =>
              if values.length < 2 then 0
              else
                let n : ℚ := (values.length : ℚ)
                let sumX : ℚ := ((List.range values.length).map fun i => (i : ℚ)).sum
                let sumY : ℚ := values.sum
                let sumXY : ℚ :=
                  (values.enum.map fun p => (p.1 : ℚ) * p.2).sum
                let sumXX : ℚ := ((List.range values.length).map fun i => (i : ℚ) ^ 2).sum
                (n * sumXY - sumX * sumY) / (n * sumXX - sumX ^ 2)
          | .Percentile => (sortQ values).getD (values.length / 2) 0)
  | _ => .error (.RuntimeError "Function requires a metric argument")

/-- `runtime.rs`: `Runtime::evaluate_expression`. `evaluate_anomaly` and
`evaluate_function` read the wall clock internally; the model passes it as
`now_ms`. -/
def Runtime.evaluate_expression (rt : Runtime) (e : Expression) (metrics : MetricValues)
    (now_ms : ℕ) : Except SELError ℚ :=
  match e with
  | .Metric m =>
      match metrics.get m with
      | some v => .ok v
      | none => .error (.RuntimeError ("Metric " ++ m.debugStr ++ " not available"))
  | .Literal v => .ok (value_to_f64 v)
  | .Variable name =>
      match rt.vars.lookup name with
      | some v => .ok v
      | none => .error (.RuntimeError ("Variable $" ++ name ++ " not defined"))
  | .Binary op l r => do
      let left ← rt.evaluate_expression l metrics now_ms
      let right ← rt.evaluate_expression r metrics now_ms
      match op with
      | .Add => pure (left + right)
      | .Subtract => pure (left - right)
      | .Multiply => pure (left * right)
      | .Divide =>
          if |right| < epsilonF64 then throw (.RuntimeError "Division by zero")
          else pure (left / right)
      | .Modulo => pure (qRem left right)
  | .Function name args period => rt.evaluate_function name args period metrics now_ms

/-- `runtime.rs`: `Runtime::evaluate_comparison`. -/
def Runtime.evaluate_comparison (rt : Runtime) (l : Expression) (op : ComparisonOp)
    (r : Expression) (metrics : MetricValues) (now_ms : ℕ) : Except SELError Bool := do
  let left ← rt.evaluate_expression l metrics now_ms
  let right ← rt.evaluate_expression r metrics now_ms
  pure (match op with
    | .LessThan => decide (left < right)
    | .LessThanOrEqual => decide (left ≤ right)
    | .GreaterThan => decide (right < left)
    | .GreaterThanOrEqual => decide (right ≤ left)
    | .Equal => decide (|left - right| < epsilonF64)
    | .NotEqual => decide (epsilonF64 ≤ |left - right|))

/-- `runtime.rs`: `Runtime::evaluate_trend` (previous snapshot comes from
`previous_values`; absent samples make the condition false). -/
def Runtime.evaluate_trend (rt : Runtime) (m : Metric) (direction : TrendDirection)
    (threshold_per_hour : Option ℚ) (metrics : MetricValues) : Except SELError Bool :=
  match metrics.get m, rt.previous_values.get m with
  | some curr, some prev =>
      let diff := curr - prev
      let threshold := threshold_per_hour.getD 0
      .ok (match direction with
        | .Rising => decide (threshold < diff)
        | .Falling => decide (diff < -threshold)
        | .Stable => decide (|diff| ≤ threshold))
  | _, _ => .ok false

/-- `runtime.rs`: `Runtime::evaluate_anomaly`. The source compares
`|current - mean| > stddev * sensitivity` with `stddev = sqrt variance`;
`sqrtGtQ` performs that comparison exactly without the irrational
intermediate. -/
def Runtime.evaluate_anomaly (rt : Runtime) (m : Metric) (period_seconds : ℕ)
    (sensitivity : ℚ) (metrics : MetricValues) (now_ms : ℕ) : Except SELError Bool :=
  let current := metrics.get m
  let history := rt.history.get_range m period_seconds now_ms
  match current with
  | none => .ok false
  | some curr =>
      if history.isEmpty then .ok false
      else
        let mean := history.sum / (history.length : ℚ)
        let variance := (history.map fun v => (v - mean) ^ 2).sum / (history.length : ℚ)
        let deviation := |curr - mean|
        .ok (sqrtGtQ deviation sensitivity variance)

mutual

/-- `runtime.rs`: `Runtime::evaluate_condition`. -/
def Runtime.evaluate_condition (rt : Runtime) (cond : Condition) (metrics : MetricValues)
    (now_ms : ℕ) : Except SELError Bool :=
  match cond with
  | .Comparison l op r => rt.evaluate_comparison l op r metrics now_ms
  | .Logical op conds =>
      match op with
      | .And => Runtime.evaluate_logical_and rt conds metrics now_ms
      | .Or => Runtime.evaluate_logical_or rt conds metrics now_ms
      | .Not =>
          match conds with
          | c :: _ => do
              let b ← rt.evaluate_condition c metrics now_ms
              pure (!b)
          | [] => .ok true
  | .Trend m dir th => rt.evaluate_trend m dir th metrics
  | .Anomaly m period sens => rt.evaluate_anomaly m period sens metrics now_ms
  | .TimeWindow _ _ => .ok true

/-- The short-circuiting `And` loop of `evaluate_logical`. -/
def Runtime.evaluate_logical_and (rt : Runtime) (conds : List Condition)
    (metrics : MetricValues) (now_ms : ℕ) : Except SELError Bool :=
  match conds with
  | [] => .ok true
  | c :: cs => do
      let b ← rt.evaluate_condition c metrics now_ms
      if b then Runtime.evaluate_logical_and rt cs metrics now_ms else pure false

/-- The short-circuiting `Or` loop of `evaluate_logical`. -/
def Runtime.evaluate_logical_or (rt : Runtime) (conds : List Condition)
    (metrics : MetricValues) (now_ms : ℕ) : Except SELError Bool :=
  match conds with
  | [] => .ok false
  | c :: cs => do
      let b ← rt.evaluate_condition c metrics now_ms
      if b then pure true else Runtime.evaluate_logical_or rt cs metrics now_ms

end

/-- `runtime.rs`: `Runtime::render_template`. A literal `{` / `}` in the
output placeholder is written with `\x7b` / `\x7d` escapes. -/
def Runtime.render_template (rt : Runtime) (t : TemplateString) (metrics : MetricValues)
    (now_ms : ℕ) : String :=
  t.parts.foldl
    (fun result part =>
      match part with
      | .Text text => result ++ text
      | .Expression expr =>
          match rt.evaluate_expression expr metrics now_ms with
          | .ok value =>
              match expr with
              | .Metric m => result ++ format_metric_value m value
              | _ => result ++ formatFixed 1 value
          | .error _ => result ++ "\x7b?\x7d")
    ""

/-- `runtime.rs`: `Runtime::generate_webhook_body` (the `&self` receiver is
unused by the source body). -/
def Runtime.generate_webhook_body (_rt : Runtime) (metrics : MetricValues) : String :=
  let r := allMetrics.foldl
    (fun (acc : String × Bool) m =>
      match metrics.get m with
      | some value =>
          (acc.1 ++ (if acc.2 then "" else ", ") ++ "\"" ++ m.debugStr ++ "\": " ++
            displayF64 value, false)
      | none => acc)
    ("\x7b", true)
  r.1 ++ "\x7d"

/-- `runtime.rs`: `Runtime::execute_actions`. The source returns `Result`
but every arm is `Ok` (template rendering swallows evaluation errors), so
the model is total. -/
def Runtime.execute_actions (rt : Runtime) (actions : List SELAction)
    (metrics : MetricValues) (now_ms : ℕ) : List ActionResult :=
  actions.map fun a =>
    match a with
    | .Notify message _ _ => .Notify (rt.render_template message metrics now_ms)
    | .Webhook url _ _ body =>
        .Webhook url
          (match body with
           | some b => rt.render_template b metrics now_ms
           | none => rt.generate_webhook_body metrics)
    | .Log message _ => .Log (rt.render_template message metrics now_ms)
    | .SetVariable _ _ => .Skipped "SetVariable action not supported in runtime v1.0"

/-- `runtime.rs`: `Runtime::evaluate_event_rule` after the cooldown gate:
the enabled check, condition evaluation, action materialisation, cooldown
ledger update and previous-snapshot update. -/
def Runtime.evaluate_event_rule_body (rt : Runtime) (rule : EventRule)
    (metrics : MetricValues) (nowMono now_ms : ℕ) :
    Runtime × Except SELError RuleResult :=
  if !rule.enabled then
    (rt, .ok ⟨rule.id, false, [.Skipped "Rule disabled"], none⟩)
  else
    match rt.evaluate_condition rule.condition metrics now_ms with
    | .error e => (rt, .error e)
    | .ok condition_met =>
        if condition_met then
          let actions := rt.execute_actions rule.actions metrics now_ms
          ({ rt with
              cooldowns := rt.cooldowns.trigger rule.id nowMono,
              previous_values := metrics },
            .ok ⟨rule.id, true, actions, rule.cooldown_seconds.map durFromSecs⟩)
        else
          (rt, .ok ⟨rule.id, false, [], none⟩)

/-- `runtime.rs`: `Runtime::evaluate_event_rule`. The monotonic clock
(`Instant::now`) is the explicit `nowMono` (nanoseconds); the wall clock used
by anomaly/aggregate evaluation is `now_ms`. The `&mut self` receiver is the
returned `Runtime`. -/
def Runtime.evaluate_event_rule (rt : Runtime) (rule : EventRule)
    (metrics : MetricValues) (nowMono now_ms : ℕ) :
    Runtime × Except SELError RuleResult :=
  match rule.cooldown_seconds with
  | some cooldown =>
      if rt.cooldowns.is_in_cooldown rule.id cooldown nowMono then
        (rt, .ok ⟨rule.id, false, [.Skipped "In cooldown"],
          rt.cooldowns.remaining rule.id cooldown nowMono⟩)
      else rt.evaluate_event_rule_body rule metrics nowMono now_ms
  | none => rt.evaluate_event_rule_body rule metrics nowMono now_ms


/-- Cooldown bookkeeping: when `evaluate_event_rule` returns a triggered
result, the updated runtime's cooldown ledger maps the rule's id to the
monotonic instant of the call. -/
theorem evaluate_event_rule_body_trigger_ledger (rt : Runtime) (rule : EventRule)
    (metrics : MetricValues) (T ms : ℕ) (res : RuleResult)
    (h : (rt.evaluate_event_rule_body rule metrics T ms).2 = .ok res)
    (ht : res.triggered = true) :
    (rt.evaluate_event_rule_body rule metrics T ms).1.cooldowns.last_triggered.lookup
      rule.id = some T := by
  by_cases hen : rule.enabled = true
  · cases hc : rt.evaluate_condition rule.condition metrics ms with
    | error e =>
        simp only [Runtime.evaluate_event_rule_body, hen, hc, Bool.not_true,
          Bool.false_eq_true, if_false] at h
        simp at h
    | ok met =>
        cases met with
        | false =>
            simp only [Runtime.evaluate_event_rule_body, hen, hc, Bool.not_true,
              Bool.false_eq_true, if_false] at h
            have e := Except.ok.inj h
            rw [← e] at ht
            simp at ht
        | true =>
            simp only [Runtime.evaluate_event_rule_body, hen, hc, Bool.not_true,
              Bool.false_eq_true, if_false, if_true]
            simp [CooldownState.trigger, List.lookup]
  · have hen2 : rule.enabled = false := by
      revert hen
      cases rule.enabled <;> simp
    simp only [Runtime.evaluate_event_rule_body, hen2, Bool.not_false, if_true] at h
    have e := Except.ok.inj h
    rw [← e] at ht
    simp at ht

/-- Same as `evaluate_event_rule_body_trigger_ledger`, through the cooldown
gate of `evaluate_event_rule`. -/
theorem evaluate_event_rule_trigger_ledger (rt : Runtime) (rule : EventRule)
    (metrics : MetricValues) (T ms : ℕ) (res : RuleResult)
    (h : (rt.evaluate_event_rule rule metrics T ms).2 = .ok res)
    (ht : res.triggered = true) :
    (rt.evaluate_event_rule rule metrics T ms).1.cooldowns.last_triggered.lookup
      rule.id = some T := by
  cases hcd : rule.cooldown_seconds with
  | none =>
      simp only [Runtime.evaluate_event_rule, hcd] at h ⊢
      exact evaluate_event_rule_body_trigger_ledger rt rule metrics T ms res h ht
  | some c =>
      by_cases hic : rt.cooldowns.is_in_cooldown rule.id c T = true
      · simp only [Runtime.evaluate_event_rule, hcd, hic, if_true] at h
        have e := Except.ok.inj h
        rw [← e] at ht
        simp at ht
      · simp only [Runtime.evaluate_event_rule, hcd, hic, Bool.false_eq_true, if_false] at h ⊢
        exact evaluate_event_rule_body_trigger_ledger rt rule metrics T ms res h ht

/-- A call within the cooldown window returns the skip result and leaves the
runtime unchanged. -/
theorem evaluate_event_rule_in_cooldown (rt : Runtime) (rule : EventRule)
    (metrics : MetricValues) (C T now2 ms : ℕ)
    (hcd : rule.cooldown_seconds = some C)
    (hlk : rt.cooldowns.last_triggered.lookup rule.id = some T)
    (hwin : now2 - T < durFromSecs C) :
    rt.evaluate_event_rule rule metrics now2 ms =
      (rt, .ok ⟨rule.id, false, [.Skipped "In cooldown"],
        some (durFromSecs C - (now2 - T))⟩) := by
  have h1 : rt.cooldowns.is_in_cooldown rule.id C now2 = true := by
    simp [CooldownState.is_in_cooldown, hlk, hwin]
  have h2 : rt.cooldowns.remaining rule.id C now2 =
      some (durFromSecs C - (now2 - T)) := by
    simp [CooldownState.remaining, hlk, hwin]
  simp [Runtime.evaluate_event_rule, hcd, h1, h2]

/-- C2: if `evaluate_event_rule` triggers a rule with `cooldown_seconds = C`
at monotonic instant `T`, the cooldown ledger afterwards maps the rule's id
to `T`; and every call for the same rule, on any runtime whose ledger maps
the id to `T`, at a monotonic instant `now` with `T ≤ now < T + C`, returns
`triggered = false` with exactly the single action `Skipped "In cooldown"`
together with the remaining cooldown `C - (now - T)`, leaving the runtime
unchanged. -/
theorem C2_cooldown_skip (rt : Runtime) (rule : EventRule) (metrics : MetricValues)
    (C T ms : ℕ) (res : RuleResult)
    (hcd : rule.cooldown_seconds = some C)
    (heval : (rt.evaluate_event_rule rule metrics T ms).2 = .ok res)
    (htrig : res.triggered = true) :
    (rt.evaluate_event_rule rule metrics T ms).1.cooldowns.last_triggered.lookup rule.id
      = some T ∧
    ∀ (rt2 : Runtime) (m2 : MetricValues) (now2 ms2 : ℕ),
      rt2.cooldowns.last_triggered.lookup rule.id = some T →
      T ≤ now2 → now2 - T < durFromSecs C →
      rt2.evaluate_event_rule rule m2 now2 ms2 =
        (rt2, .ok ⟨rule.id, false, [.Skipped "In cooldown"],
          some (durFromSecs C - (now2 - T))⟩) :=
  ⟨evaluate_event_rule_trigger_ledger rt rule metrics T ms res heval htrig,
   fun rt2 m2 now2 ms2 hlk _hle hwin =>
     evaluate_event_rule_in_cooldown rt2 rule m2 C T now2 ms2 hcd hlk hwin⟩

/-- Witness rule for C2: `ON battery_soc < 20%` with a 30-minute cooldown. -/
def c2rule : EventRule :=
  ⟨"r1", none, .Comparison (.Metric .BatterySoc) .LessThan (.Literal (.Percent 20)),
    [], some 1800, true⟩

/-- Witness snapshot for C2. -/
def c2metrics : MetricValues := ⟨none, none, some 15, none, none, none, none⟩

/-- The triggered result of the first witness call for C2. -/
def c2res : RuleResult := ⟨"r1", true, [], some (durFromSecs 1800)⟩

/-- Witness for C2 at a concrete input: the rule triggers at instant 0 and a
second call 5 seconds later is skipped with 1795 seconds remaining. -/
theorem C2_cooldown_skip_witness :
    c2rule.cooldown_seconds = some 1800 ∧
    (Runtime.new.evaluate_event_rule c2rule c2metrics 0 0).2 = .ok c2res ∧
    c2res.triggered = true ∧
    (Runtime.new.evaluate_event_rule c2rule c2metrics 0 0).1.evaluate_event_rule c2rule
        c2metrics (durFromSecs 5) 0 =
      ((Runtime.new.evaluate_event_rule c2rule c2metrics 0 0).1,
        .ok ⟨"r1", false, [.Skipped "In cooldown"],
          some (durFromSecs 1800 - durFromSecs 5)⟩) := by
  refine ⟨rfl, rfl, rfl, ?_⟩
  have h := C2_cooldown_skip Runtime.new c2rule c2metrics 1800 0 0 c2res rfl rfl rfl
  have h2 := h.2 (Runtime.new.evaluate_event_rule c2rule c2metrics 0 0).1 c2metrics
    (durFromSecs 5) 0 h.1 (Nat.zero_le _) (by norm_num [durFromSecs])
  simpa [durFromSecs] using h2

/-- `MetricHistory::add` does not change the retention window. -/
theorem MetricHistory.add_max_age (h : MetricHistory) (m : Metric) (ts : ℕ) (v : ℚ) :
    (h.add m ts v).max_age_seconds = h.max_age_seconds := rfl

/-- `MetricHistory::add` for another metric leaves this metric's samples
unchanged. -/
theorem MetricHistory.add_data_ne (h : MetricHistory) (m m' : Metric) (ts : ℕ) (v : ℚ)
    (hne : m ≠ m') : (h.add m' ts v).data m = h.data m := by
  simp [MetricHistory.add, Function.update_noteq hne]

/-- `MetricHistory::add` pushes the sample and prunes against
`timestamp_ms - max_age_seconds*1000`. -/
theorem MetricHistory.add_data_self (h : MetricHistory) (m : Metric) (ts : ℕ) (v : ℚ) :
    (h.add m ts v).data m =
      (h.data m ++ [(ts, v)]).filter fun e => ts - h.max_age_seconds * 1000 ≤ e.1 := by
  simp [MetricHistory.add]

/-- The `record_history` loop preserves the retention window. -/
theorem recordHistoryFold_max_age (mv : MetricValues) (ts : ℕ) (ms : List Metric)
    (h : MetricHistory) :
    (recordHistoryFold mv ts h ms).max_age_seconds = h.max_age_seconds := by
  induction ms generalizing h with
  | nil => rfl
  | cons m rest ih =>
      rw [recordHistoryFold]
      cases mv.get m <;> simp [ih, MetricHistory.add_max_age]

/-- A metric absent from the snapshot is untouched by the `record_history`
loop. -/
theorem recordHistoryFold_data_of_none (mv : MetricValues) (ts : ℕ) (ms : List Metric)
    (h : MetricHistory) (m : Metric) (hnone : mv.get m = none) :
    (recordHistoryFold mv ts h ms).data m = h.data m := by
  induction ms generalizing h with
  | nil => rfl
  | cons m' rest ih =>
      rw [recordHistoryFold]
      by_cases he : m' = m
      · subst he
        rw [hnone]
        exact ih h
      · cases hm : mv.get m' with
        | none => exact ih h
        | some v =>
            rw [ih]
            exact MetricHistory.add_data_ne h m m' ts v (Ne.symm he)

/-- If every retained sample of a metric already satisfies the cutoff bound
of this call, the `record_history` loop preserves that bound. -/
theorem recordHistoryFold_bound (mv : MetricValues) (ts : ℕ) (ms : List Metric)
    (h : MetricHistory) (m : Metric) (B : ℕ)
    (hBc : B = ts - h.max_age_seconds * 1000)
    (hB : ∀ e ∈ h.data m, B ≤ e.1) :
    ∀ e ∈ (recordHistoryFold mv ts h ms).data m, B ≤ e.1 := by
  induction ms generalizing h with
  | nil => exact hB
  | cons m' rest ih =>
      rw [recordHistoryFold]
      cases hm : mv.get m' with
      | none => exact ih h hBc hB
      | some v =>
          refine ih _ (by rw [MetricHistory.add_max_age]; exact hBc) ?_
          by_cases he : m' = m
          · subst he
            rw [MetricHistory.add_data_self]
            intro e he2
            have := List.of_mem_filter he2
            simp only [decide_eq_true_eq] at this
            omega
          · rw [MetricHistory.add_data_ne h m m' ts v (fun hh => he hh.symm)]
            exact hB

/-- After a `record_history` loop over a list containing the metric whose
snapshot value is present, every retained sample of that metric is within
the retention window of this call. -/
theorem recordHistoryFold_mem_bound (mv : MetricValues) (ts : ℕ) (ms : List Metric)
    (h : MetricHistory) (m : Metric) (hmem : m ∈ ms) (hsome : (mv.get m).isSome) :
    ∀ e ∈ (recordHistoryFold mv ts h ms).data m,
      ts - h.max_age_seconds * 1000 ≤ e.1 := by
  induction ms generalizing h with
  | nil => cases hmem
  | cons m2 rest ih =>
      rw [recordHistoryFold]
      by_cases he : m = m2
      · obtain ⟨v, hv⟩ := Option.isSome_iff_exists.mp hsome
        rw [← he, hv]
        have hadd : ∀ e ∈ (h.add m ts v).data m, ts - h.max_age_seconds * 1000 ≤ e.1 := by
          rw [MetricHistory.add_data_self]
          intro e he2
          have := List.of_mem_filter he2
          simp only [decide_eq_true_eq] at this
          omega
        exact recordHistoryFold_bound mv ts rest (h.add m ts v) m
          (ts - h.max_age_seconds * 1000) (by rw [MetricHistory.add_max_age]) hadd
      · have hmem2 : m ∈ rest := by
          rcases List.mem_cons.mp hmem with h1 | h1
          · exact absurd h1 he
          · exact h1
        cases hm : mv.get m2 with
        | none => exact ih h hmem2
        | some v => exact ih (h.add m2 ts v) hmem2

/-- Every metric is in the fixed iteration list. -/
theorem mem_allMetrics (m : Metric) : m ∈ allMetrics := by
  cases m <;> simp [allMetrics]

/-- A sequence of `record_history` calls, oldest first. -/
def runRecordHistory (rt : Runtime) (calls : List (MetricValues × ℕ)) : Runtime :=
  calls.foldl (fun r c => r.record_history c.1 c.2) rt

/-- The timestamp of the last call whose snapshot contained the metric. -/
def lastContainingTs (m : Metric) (calls : List (MetricValues × ℕ)) : Option ℕ :=
  ((calls.filter fun c => (c.1.get m).isSome).getLast?).map (·.2)

/-- Unfolding one call off the end of a `record_history` sequence. -/
theorem runRecordHistory_append (rt : Runtime) (calls : List (MetricValues × ℕ))
    (c : MetricValues × ℕ) :
    runRecordHistory rt (calls ++ [c]) =
      (runRecordHistory rt calls).record_history c.1 c.2 := by
  simp [runRecordHistory, List.foldl_append]

/-- `record_history` preserves the retention window. -/
theorem record_history_max_age (rt : Runtime) (mv : MetricValues) (ts : ℕ) :
    (rt.record_history mv ts).history.max_age_seconds = rt.history.max_age_seconds := by
  simp [Runtime.record_history, recordHistoryFold_max_age]

/-- A `record_history` sequence preserves the retention window. -/
theorem runRecordHistory_max_age (rt : Runtime) (calls : List (MetricValues × ℕ)) :
    (runRecordHistory rt calls).history.max_age_seconds =
      rt.history.max_age_seconds := by
  induction calls generalizing rt with
  | nil => rfl
  | cons c rest ih =>
      rw [runRecordHistory, List.foldl_cons]
      have := ih (rt.record_history c.1 c.2)
      rw [runRecordHistory] at this
      rw [this, record_history_max_age]

/-- C7 (amended): after any sequence of `record_history` calls with
non-decreasing timestamps, for each metric recorded at least once, no
retained sample of that metric has a timestamp strictly less than `t_m −
max_age_seconds·1000`, where `t_m` is the timestamp of the last call whose
snapshot contained that metric. (The pruning bound of the claim holds per
metric at its own last recording, not at the globally last timestamp.) -/
theorem C7_history_pruning_bound (rt0 : Runtime) (calls : List (MetricValues × ℕ))
    (m : Metric) (t : ℕ)
    (hsorted : List.Chain' (· ≤ ·) (calls.map (·.2)))
    (hlast : lastContainingTs m calls = some t) :
    ∀ e ∈ (runRecordHistory rt0 calls).history.data m,
      t - rt0.history.max_age_seconds * 1000 ≤ e.1 := by
  induction calls using List.reverseRecOn with
  | nil => simp [lastContainingTs] at hlast
  | append_singleton l c ih =>
      rw [runRecordHistory_append]
      cases hcq : c.1.get m with
      | none =>
          have hdata : ((runRecordHistory rt0 l).record_history c.1 c.2).history.data m =
              (runRecordHistory rt0 l).history.data m := by
            simp only [Runtime.record_history]
            exact recordHistoryFold_data_of_none c.1 c.2 allMetrics _ m hcq
          rw [hdata]
          have hlast2 : lastContainingTs m l = some t := by
            simp only [lastContainingTs, List.filter_append] at hlast
            simp only [List.filter, hcq, Option.isSome_none] at hlast
            simpa [lastContainingTs] using hlast
          have hsorted2 : List.Chain' (· ≤ ·) (l.map (·.2)) := by
            rw [List.map_append] at hsorted
            exact hsorted.left_of_append
          exact ih hsorted2 hlast2
      | some v =>
          have hsome : (c.1.get m).isSome := by rw [hcq]; rfl
          have ht : t = c.2 := by
            simp only [lastContainingTs, List.filter_append] at hlast
            simp only [List.filter, hsome, List.getLast?_concat] at hlast
            simp at hlast
            omega
          subst ht
          intro e he
          have hb := recordHistoryFold_mem_bound c.1 c.2 allMetrics
            (runRecordHistory rt0 l).history m (mem_allMetrics m) hsome e
            (by simpa [Runtime.record_history] using he)
          rw [runRecordHistory_max_age] at hb
          exact hb

/-- A runtime whose history store keeps samples for 1 second. -/
def c7runtime : Runtime := { Runtime.new with history := MetricHistory.new 1 }

/-- Two history calls: `pv_power` at t=0ms, then a snapshot without
`pv_power` at t=10000ms. -/
def c7calls : List (MetricValues × ℕ) :=
  [(⟨some 1, none, none, none, none, none, none⟩, 0),
   (⟨none, none, some 2, none, none, none, none⟩, 10000)]

/-- C7 counterexample: with a 1-second retention window, recording
`pv_power` at t=0ms and then a snapshot without `pv_power` at t=10000ms
leaves the stale `pv_power` sample `(0, 1)` retained, although its timestamp
0 is strictly less than `10000 − max_age_seconds·1000 = 9000`. This refutes
claim C7 as stated. -/
theorem C7_counterexample :
    List.Chain' (· ≤ ·) (c7calls.map (·.2)) ∧
    (0, 1) ∈ (runRecordHistory c7runtime c7calls).history.data Metric.PvPower ∧
    (0 : ℕ) < 10000 - c7runtime.history.max_age_seconds * 1000 := by
  refine ⟨?_, ?_, ?_⟩
  · simp [c7calls, List.chain'_cons]
  · decide
  · decide

/-- Witness for C7 (amended) at a concrete input: the retained `pv_power`
sample satisfies the per-metric bound of its own last recording time. -/
theorem C7_history_pruning_bound_witness :
    List.Chain' (· ≤ ·) (c7calls.map (·.2)) ∧
    lastContainingTs Metric.PvPower c7calls = some 0 ∧
    (0, 1) ∈ (runRecordHistory c7runtime c7calls).history.data Metric.PvPower ∧
    (0 : ℕ) - c7runtime.history.max_age_seconds * 1000 ≤ ((0, (1 : ℚ)).1) := by
  refine ⟨by simp [c7calls, List.chain'_cons], by decide, by decide, ?_⟩
  exact C7_history_pruning_bound c7runtime c7calls Metric.PvPower 0
    (by simp [c7calls, List.chain'_cons]) (by decide) (0, 1) (by decide)

/-- `scheduler.rs`: `ScheduleState` (`last_triggered : HashMap<String,
Instant>` in nanoseconds, `last_triggered_ts : HashMap<String, u64>` in
wall-clock seconds; insert = prepend, lookup = first match). -/
structure ScheduleState where
  last_triggered : List (String × ℕ)
  last_triggered_ts : List (String × ℕ)

/-- `scheduler.rs`: `ScheduleState::new`. -/
def ScheduleState.new : ScheduleState := ⟨[], []⟩

/-- `scheduler.rs`: `ScheduleState::record_trigger` (`Instant::now()` is the
explicit `nowMono`). -/
def ScheduleState.record_trigger (st : ScheduleState) (rule_id : String)
    (timestamp nowMono : ℕ) : ScheduleState :=
  ⟨(rule_id, nowMono) :: st.last_triggered, (rule_id, timestamp) :: st.last_triggered_ts⟩

/-- `scheduler.rs`: `ScheduleState::last_trigger_ts`. -/
def ScheduleState.last_trigger_ts (st : ScheduleState) (rule_id : String) : Option ℕ :=
  st.last_triggered_ts.lookup rule_id

/-- `scheduler.rs`: `ScheduleState::can_trigger`
(`last.elapsed() >= min_interval`). -/
def ScheduleState.can_trigger (st : ScheduleState) (rule_id : String)
    (min_interval nowMono : ℕ) : Bool :=
  match st.last_triggered.lookup rule_id with
  | some last => decide (min_interval ≤ nowMono - last)
  | none => true

/-- `scheduler.rs`: `is_leap_year`. -/
def is_leap_year (year : ℕ) : Bool :=
  (year % 4 == 0 && year % 100 != 0) || year % 400 == 0

/-- `scheduler.rs`: the per-month day counts of `days_to_ymd`. -/
def days_in_months (leap : Bool) : List ℕ :=
  if leap then [31, 29, 31, 30, 31, 30, 31, 31, 30, 31, 30, 31]
  else [31, 28, 31, 30, 31, 30, 31, 31, 30, 31, 30, 31]

/-- The year loop of `days_to_ymd`. Each iteration subtracts at least 365
days, so `days / 365 + 1` units of fuel always suffice; the fuel-exhaustion
arm is unreachable for that fuel. -/
def ymdYearLoop : ℕ → ℕ → ℕ → ℕ × ℕ
  | 0, year, remaining => (year, remaining)
  | fuel + 1, year, remaining =>
      let days_in_year := if is_leap_year year then 366 else 365
      if remaining < days_in_year then (year, remaining)
      else ymdYearLoop fuel (year + 1) (remaining - days_in_year)

/-- The month loop of `days_to_ymd`. -/
def ymdMonthLoop : List ℕ → ℕ → ℕ → ℕ × ℕ
  | [], month, remaining => (month, remaining)
  | dim :: rest, month, remaining =>
      if remaining < dim then (month, remaining)
      else ymdMonthLoop rest (month + 1) (remaining - dim)

/-- `scheduler.rs`: `days_to_ymd` (days since 1970 → year, month, day). The
source indexes with `i64`/`i32`; all reachable values are nonnegative, so
`ℕ` is used. -/
def days_to_ymd (days : ℕ) : ℕ × ℕ × ℕ :=
  let yr := ymdYearLoop (days / 365 + 1) 1970 days
  let mr := ymdMonthLoop (days_in_months (is_leap_year yr.1)) 1 yr.2
  (yr.1, mr.1, mr.2 + 1)

/-- `scheduler.rs`: `DateTime` (`u16`/`u8`/`u64` fields as `ℕ`). -/
structure DateTime where
  year : ℕ
  month : ℕ
  day : ℕ
  weekday : ℕ
  hour : ℕ
  minute : ℕ
  second : ℕ
  timestamp : ℕ
deriving DecidableEq, Repr

/-- `scheduler.rs`: `DateTime::from_timestamp`. -/
def DateTime.from_timestamp (ts : ℕ) : DateTime :=
  let days_since_epoch := ts / 86400
  let time_of_day := ts % 86400
  let hour := time_of_day / 3600
  let minute := (time_of_day % 3600) / 60
  let second := time_of_day % 60
  let weekday := (days_since_epoch + 3) % 7 + 1
  let ymd := days_to_ymd days_since_epoch
  ⟨ymd.1, ymd.2.1, ymd.2.2, weekday, hour, minute, second, ts⟩

/-- `scheduler.rs`: `Scheduler::matches_calendar` (a method on `&self` that
does not use the receiver). -/
def matches_calendar (cal : CalendarSchedule) (now : DateTime) : Bool :=
  if now.hour != cal.at_time.hour || now.minute != cal.at_time.minute then false
  else if 60 ≤ now.second then false
  else
    match cal.frequency with
    | .Daily => true
    | .Weekly =>
        match cal.on_day with
        | some target_day => now.weekday == target_day
        | none => now.weekday == 1
    | .Monthly =>
        match cal.on_day with
        | some target_day => now.day == target_day
        | none => now.day == 1
    | .Yearly =>
        match cal.on_day with
        | some target_day => now.day == target_day && now.month == 1
        | none => now.day == 1 && now.month == 1

/-- `scheduler.rs`: `Scheduler::matches_schedule` (Interval and Cron never
match here). -/
def matches_schedule (s : Schedule) (now : DateTime) : Bool :=
  match s with
  | .Calendar cal => matches_calendar cal now
  | .Interval _ => false
  | .Cron _ => false

/-- `scheduler.rs`: `Scheduler::already_triggered_in_period`. -/
def already_triggered_in_period (rule : ScheduleRule) (last now : DateTime) : Bool :=
  match rule.schedule with
  | .Calendar cal =>
      match cal.frequency with
      | .Daily => last.year == now.year && last.month == now.month && last.day == now.day
      | .Weekly => last.year == now.year && last.month == now.month && last.day == now.day
      | .Monthly => last.year == now.year && last.month == now.month
      | .Yearly => last.year == now.year
  | .Interval _ => false
  | .Cron _ => false

/-- `scheduler.rs`: the `Scheduler` (its only state is a `ScheduleState`). -/
structure Scheduler where
  state : ScheduleState

/-- `scheduler.rs`: `Scheduler::new`. -/
def Scheduler.new : Scheduler := ⟨ScheduleState.new⟩

/-- `scheduler.rs`: `Scheduler::record_trigger`. -/
def Scheduler.record_trigger (s : Scheduler) (rule_id : String)
    (timestamp nowMono : ℕ) : Scheduler :=
  ⟨s.state.record_trigger rule_id timestamp nowMono⟩

/-- `scheduler.rs`: `Scheduler::should_trigger` (the monotonic clock behind
`can_trigger` is the explicit `nowMono`). -/
def Scheduler.should_trigger (s : Scheduler) (rule : ScheduleRule) (now : DateTime)
    (nowMono : ℕ) : Bool :=
  if !rule.enabled then false
  else if !s.state.can_trigger rule.id (durFromSecs 60) nowMono then false
  else
    match s.state.last_trigger_ts rule.id with
    | some last_ts =>
        if already_triggered_in_period rule (DateTime.from_timestamp last_ts) now then false
        else matches_schedule rule.schedule now
    | none => matches_schedule rule.schedule now

/-- `scheduler.rs`: `Scheduler::check_interval`. -/
def Scheduler.check_interval (s : Scheduler) (rule : ScheduleRule) (now_ts : ℕ) : Bool :=
  if !rule.enabled then false
  else
    match rule.schedule with
    | .Interval interval_seconds =>
        match s.state.last_trigger_ts rule.id with
        | some last_ts => decide (last_ts + interval_seconds ≤ now_ts)
        | none => true
    | .Calendar _ => false
    | .Cron _ => false

/-- The calendar-period relation of claim C6: same day for Daily and Weekly,
same month for Monthly, same year for Yearly. -/
def samePeriodClaim (f : CalendarFrequency) (a b : DateTime) : Bool :=
  match f with
  | .Daily => a.year == b.year && a.month == b.month && a.day == b.day
  | .Weekly => a.year == b.year && a.month == b.month && a.day == b.day
  | .Monthly => a.year == b.year && a.month == b.month
  | .Yearly => a.year == b.year

/-- For a Calendar schedule, `already_triggered_in_period` is exactly the
claim's calendar-period relation. -/
theorem already_triggered_eq_samePeriod (rule : ScheduleRule) (cal : CalendarSchedule)
    (last now : DateTime) (hcal : rule.schedule = .Calendar cal) :
    already_triggered_in_period rule last now = samePeriodClaim cal.frequency last now := by
  obtain ⟨freq, at_time, on_day⟩ := cal
  rw [already_triggered_in_period, hcal]
  cases freq <;> rfl

/-- C6: for an enabled Calendar schedule rule, once `record_trigger` has been
called with wall-clock seconds `t`, `should_trigger` returns false at every
instant whose calendar period (day for Daily and Weekly, month for Monthly,
year for Yearly) equals that of `t` — regardless of the monotonic clock — so
the rule triggers at most once per calendar period. -/
theorem C6_calendar_idempotent (s : Scheduler) (rule : ScheduleRule)
    (cal : CalendarSchedule) (t monoT : ℕ) (now : DateTime) (mono2 : ℕ)
    (hcal : rule.schedule = .Calendar cal)
    (_hen : rule.enabled = true)
    (hsame : samePeriodClaim cal.frequency (DateTime.from_timestamp t) now = true) :
    (s.record_trigger rule.id t monoT).should_trigger rule now mono2 = false := by
  rw [Scheduler.should_trigger]
  cases hct : ((s.record_trigger rule.id t monoT).state.can_trigger rule.id
      (durFromSecs 60) mono2) with
  | false => simp [hct]
  | true =>
      have hts : (s.record_trigger rule.id t monoT).state.last_trigger_ts rule.id
          = some t := by
        simp [Scheduler.record_trigger, ScheduleState.record_trigger,
          ScheduleState.last_trigger_ts, List.lookup]
      rw [hts]
      simp only [hct, Bool.not_true, Bool.false_eq_true, if_false,
        already_triggered_eq_samePeriod rule cal _ now hcal, hsame, if_true]
      simp

/-- Witness rule for C6: `EVERY day AT 18:00`. -/
def c6rule : ScheduleRule :=
  ⟨"sched1", none, .Calendar ⟨.Daily, ⟨18, 0⟩, none⟩, [], true⟩

/-- Witness for C6 at a concrete input: after triggering at 2024-01-15
18:00:00 UTC, a call 15 seconds later on the same day returns false. -/
theorem C6_calendar_idempotent_witness :
    c6rule.schedule = .Calendar ⟨.Daily, ⟨18, 0⟩, none⟩ ∧
    c6rule.enabled = true ∧
    samePeriodClaim CalendarFrequency.Daily (DateTime.from_timestamp 1705341600)
      (DateTime.from_timestamp 1705341615) = true ∧
    (Scheduler.new.record_trigger c6rule.id 1705341600 0).should_trigger c6rule
      (DateTime.from_timestamp 1705341615) (durFromSecs 15) = false := by
  refine ⟨rfl, rfl, by decide, ?_⟩
  exact C6_calendar_idempotent Scheduler.new c6rule ⟨.Daily, ⟨18, 0⟩, none⟩ 1705341600 0
    (DateTime.from_timestamp 1705341615) (durFromSecs 15) rfl rfl (by decide)

/-- `lexer.rs`: `TokenKind`. -/
inductive TokenKind where
  | On | Every | At | During | Between | And | Or | Not
  | Notify | Webhook | Log | Set | Cooldown
  | Is | Unusual | Compared | To
  | Rising | Falling | Stable
  | Number | Percent | String | Time | Duration
  | Metric | Function | Variable | Identifier
  | Plus | Minus | Star | Slash | Modulo
  | Eq | Neq | Lt | Lte | Gt | Gte
  | Assign
  | LParen | RParen | LBrace | RBrace
  | Comma | Dot | DotDot | Colon
  | Newline | Indent | Dedent
  | Eof
deriving DecidableEq, Repr

/-- `lexer.rs`: `Token`. -/
structure Token where
  kind : TokenKind
  value : String
  location : SourceLocation
deriving DecidableEq, Repr

/-- `lexer.rs`: `is_function` (already-uppercased input). -/
def is_function (s : String) : Bool :=
  match s with
  | "AVG" | "MEDIAN" | "SUM" | "MIN" | "MAX" | "COUNT" | "STDDEV" | "TREND"
  | "PERCENTILE" => true
  | _ => false

/-- `lexer.rs`: `is_metric` (lowercases its input). -/
def is_metric (s : String) : Bool :=
  match strToLower s with
  | "pv_power" | "battery_power" | "battery_soc" | "grid_power" | "grid_import"
  | "grid_export" | "load_power" => true
  | _ => false

/-- `lexer.rs`: `is_power_or_energy_unit` (case-sensitive). -/
def is_power_or_energy_unit (s : String) : Bool :=
  match s with
  | "W" | "kW" | "MW" | "Wh" | "kWh" | "MWh" => true
  | _ => false

/-- `lexer.rs`: `is_duration_unit` (case-insensitive). -/
def is_duration_unit (s : String) : Bool :=
  match strToLower s with
  | "min" | "hour" | "day" | "week" | "month" | "h" | "d" | "s" | "sec" => true
  | _ => false

/-- The single-quote character, written by code point to keep apostrophes out
of the source text. -/
def singleQuote : Char := Char.ofNat 39

/-- The mutable lexer state of `lexer.rs` (`line`, `column`, `indent_stack`,
accumulated `tokens`). The indent stack keeps its top at the head (the
source `Vec` keeps it at the end). -/
structure LexState where
  line : ℕ
  column : ℕ
  indent_stack : List ℕ
  tokens : List Token
deriving Repr

/-- `Lexer::new`: line 1, column 1, indent stack `[0]`, no tokens. -/
def LexState.init : LexState := ⟨1, 1, [0], []⟩

/-- `lexer.rs`: `add_token`. -/
def LexState.add_token (st : LexState) (kind : TokenKind) (value : String)
    (offset column : ℕ) : LexState :=
  { st with tokens := st.tokens ++ [⟨kind, value, ⟨st.line, column, offset⟩⟩] }

/-- Characters the indentation pass consumes. -/
def isIndentChar (c : Char) : Bool := c == ' ' || c == '\t'

/-- The dedent loop of `handle_indentation`: pop while the stack is longer
than one and its top exceeds the current indentation, emitting one `Dedent`
per pop. The stack's top is at the head; the `[]` arm is unreachable (the
source would panic on `unwrap`). -/
def dedent_loop (spaces line column : ℕ) : List ℕ → List Token → List ℕ × List Token
  | top :: rest, toks =>
      if 0 < rest.length ∧ spaces < top then
        dedent_loop spaces line column rest (toks ++ [⟨.Dedent, "", ⟨line, column, column⟩⟩])
      else (top :: rest, toks)
  | [], toks => ([], toks)

/-- `lexer.rs`: `handle_indentation`. Consumes the leading spaces/tabs of the
line (tab = 4 columns), skips the stack update when the first remaining
character is a newline or `#`, otherwise pushes/pops the indent stack
emitting `Indent`/`Dedent`. Returns the unconsumed characters and the new
state. -/
def handle_indentation (st : LexState) (cs : List Char) : List Char × LexState :=
  let ws := cs.takeWhile isIndentChar
  let rest := cs.dropWhile isIndentChar
  let spaces := (ws.map fun c => if c == '\t' then 4 else 1).sum
  let st := { st with column := st.column + ws.length }
  if rest.head? = some '\n' ∨ rest.head? = some '#' then (rest, st)
  else
    let current := st.indent_stack.headD 0
    if current < spaces then
      (rest,
        LexState.add_token { st with indent_stack := spaces :: st.indent_stack }
          .Indent "" st.column st.column)
    else if spaces < current then
      let sd := dedent_loop spaces st.line st.column st.indent_stack st.tokens
      (rest, { st with indent_stack := sd.1, tokens := sd.2 })
    else (rest, st)

/-- `lexer.rs`: `string` — consume up to the closing quote; a newline or end
of input first is an unterminated-string error. The column advances for the
opening quote and every consumed character. -/
def lexString (quote : Char) (st : LexState) (cs : List Char)
    (start_pos start_col : ℕ) : Except SELError (List Char × LexState) :=
  let content := cs.takeWhile fun c => c != quote && c != '\n'
  let rest := cs.dropWhile fun c => c != quote && c != '\n'
  match rest with
  | [] => .error (.LexerError "Unterminated string" st.line start_col)
  | c :: rest2 =>
      if c == '\n' then .error (.LexerError "Unterminated string" st.line start_col)
      else
        .ok (rest2,
          LexState.add_token { st with column := st.column + 2 + content.length }
            .String (String.mk content) start_pos start_col)

/-- `lexer.rs`: `variable` — `$` followed by identifier characters. -/
def lexVariable (st : LexState) (cs : List Char) (start_pos start_col : ℕ) :
    Except SELError (List Char × LexState) :=
  let name := cs.takeWhile fun c => c.isAlphanum || c == '_'
  let rest := cs.dropWhile fun c => c.isAlphanum || c == '_'
  if name.isEmpty then
    .error (.LexerError "Expected variable name after $" st.line start_col)
  else
    .ok (rest,
      LexState.add_token { st with column := st.column + 1 + name.length }
        .Variable (String.mk name) start_pos start_col)

/-- `lexer.rs`: `number` — digits (with `.`), then a time (`:` + digits), a
percent (`%`), a case-sensitive power/energy unit, a duration unit, an
unknown alphabetic unit folded into the number, or a bare number. Offsets
are character positions (byte offsets of the source coincide on the ASCII
inputs the claims use). -/
def lexNumber (c0 : Char) (st : LexState) (cs : List Char)
    (start_pos start_col : ℕ) : List Char × LexState :=
  let digits := cs.takeWhile fun c => c.isDigit || c == '.'
  let rest1 := cs.dropWhile fun c => c.isDigit || c == '.'
  let num_str := String.mk (c0 :: digits)
  let col1 := st.column + 1 + digits.length
  match rest1 with
  | ':' :: r2 =>
      if (r2.head?.map Char.isDigit).getD false then
        let tdigits := r2.takeWhile Char.isDigit
        let r3 := r2.dropWhile Char.isDigit
        (r3,
          LexState.add_token { st with column := col1 + 1 + tdigits.length }
            .Time (num_str ++ ":" ++ String.mk tdigits) start_pos start_col)
      else
        -- the backtrack path: emit the number, then the colon with the
        -- synthesized column `self.column - 1` of the source
        let st1 := LexState.add_token { st with column := col1 + 1 }
          .Number num_str start_pos start_col
        (r2, LexState.add_token st1 .Colon ":" (start_pos + 1 + digits.length) col1)
  | '%' :: r2 =>
      (r2,
        LexState.add_token { st with column := col1 + 1 }
          .Percent num_str start_pos start_col)
  | _ =>
      let unit := rest1.takeWhile Char.isAlpha
      let r2 := rest1.dropWhile Char.isAlpha
      let stU := { st with column := col1 + unit.length }
      let unitS := String.mk unit
      if is_power_or_energy_unit unitS then
        (r2, LexState.add_token stU .Number (num_str ++ unitS) start_pos start_col)
      else if is_duration_unit unitS then
        (r2, LexState.add_token stU .Duration (num_str ++ unitS) start_pos start_col)
      else if !unitS.isEmpty then
        (r2, LexState.add_token stU .Number (num_str ++ unitS) start_pos start_col)
      else
        (r2, LexState.add_token stU .Number num_str start_pos start_col)

/-- `lexer.rs`: `identifier` — collect the run, classify as keyword (on the
uppercased text), function, metric or generic identifier. (`is_alphabetic`
is Unicode in the source; ASCII `Char.isAlpha` coincides on the inputs the
claims use.) -/
def lexIdentifier (c0 : Char) (st : LexState) (cs : List Char)
    (start_pos start_col : ℕ) : List Char × LexState :=
  let restChars := cs.takeWhile fun c => c.isAlphanum || c == '_'
  let r2 := cs.dropWhile fun c => c.isAlphanum || c == '_'
  let text := String.mk (c0 :: restChars)
  let upper := strToUpper text
  let kind : TokenKind :=
    match upper with
    | "ON" => .On
    | "EVERY" => .Every
    | "AT" => .At
    | "DURING" => .During
    | "BETWEEN" => .Between
    | "AND" => .And
    | "OR" => .Or
    | "NOT" => .Not
    | "NOTIFY" => .Notify
    | "WEBHOOK" => .Webhook
    | "LOG" => .Log
    | "SET" => .Set
    | "COOLDOWN" => .Cooldown
    | "IS" => .Is
    | "UNUSUAL" => .Unusual
    | "COMPARED" => .Compared
    | "TO" => .To
    | "RISING" => .Rising
    | "FALLING" => .Falling
    | "STABLE" => .Stable
    | _ =>
        if is_function upper then .Function
        else if is_metric text then .Metric
        else .Identifier
  (r2,
    LexState.add_token { st with column := st.column + 1 + restChars.length }
      kind text start_pos start_col)

/-- `self.column += 1` after emitting a one-character token. -/
def LexState.column1 (st : LexState) : LexState := { st with column := st.column + 1 }

/-- `self.column += 2` after emitting a two-character token. -/
def LexState.column2 (st : LexState) : LexState := { st with column := st.column + 2 }

/-- `lexer.rs`: the main `tokenize` loop, one iteration per source
character. `fuel` bounds the iteration count; every iteration consumes at
least one character, so `|source| + 1` units always suffice and the
fuel-exhaustion arm is unreachable there. `pos` is the character position
(the byte offset of `char_indices` on ASCII input). -/
def lexRun : ℕ → List Char → LexState → ℕ → Except SELError (List Token)
  | 0, _, st, _ => .error (.LexerError "fuel exhausted" st.line st.column)
  | _ + 1, [], st, pos => .ok (st.add_token .Eof "" pos st.column).tokens
  | fuel + 1, ch :: cs, st, pos =>
      let start_column := st.column
      if ch == ' ' || ch == '\t' || ch == '\r' then
        lexRun fuel cs { st with column := st.column + 1 } (pos + 1)
      else if ch == '\n' then
        let st1 := st.add_token .Newline "\\n" pos start_column
        let st2 := { st1 with line := st1.line + 1, column := 1 }
        let rs := handle_indentation st2 cs
        lexRun fuel rs.1 rs.2 (pos + 1 + (cs.length - rs.1.length))
      else if ch == '(' then
        lexRun fuel cs ((st.add_token .LParen "(" pos start_column).column1) (pos + 1)
      else if ch == ')' then
        lexRun fuel cs ((st.add_token .RParen ")" pos start_column).column1) (pos + 1)
      else if ch == '\x7b' then
        lexRun fuel cs ((st.add_token .LBrace "\x7b" pos start_column).column1) (pos + 1)
      else if ch == '\x7d' then
        lexRun fuel cs ((st.add_token .RBrace "\x7d" pos start_column).column1) (pos + 1)
      else if ch == ',' then
        lexRun fuel cs ((st.add_token .Comma "," pos start_column).column1) (pos + 1)
      else if ch == ':' then
        lexRun fuel cs ((st.add_token .Colon ":" pos start_column).column1) (pos + 1)
      else if ch == '+' then
        lexRun fuel cs ((st.add_token .Plus "+" pos start_column).column1) (pos + 1)
      else if ch == '-' then
        lexRun fuel cs ((st.add_token .Minus "-" pos start_column).column1) (pos + 1)
      else if ch == '*' then
        lexRun fuel cs ((st.add_token .Star "*" pos start_column).column1) (pos + 1)
      else if ch == '%' then
        lexRun fuel cs ((st.add_token .Modulo "%" pos start_column).column1) (pos + 1)
      else if ch == '.' then
        match cs with
        | '.' :: r2 =>
            lexRun fuel r2 ((st.add_token .DotDot ".." pos start_column).column2) (pos + 2)
        | _ => lexRun fuel cs ((st.add_token .Dot "." pos start_column).column1) (pos + 1)
      else if ch == '=' then
        match cs with
        | '=' :: r2 =>
            lexRun fuel r2 ((st.add_token .Eq "==" pos start_column).column2) (pos + 2)
        | _ => lexRun fuel cs ((st.add_token .Assign "=" pos start_column).column1) (pos + 1)
      else if ch == '!' then
        match cs with
        | '=' :: r2 =>
            lexRun fuel r2 ((st.add_token .Neq "!=" pos start_column).column2) (pos + 2)
        | _ => .error (.LexerError "Unexpected character '!'" st.line start_column)
      else if ch == '<' then
        match cs with
        | '=' :: r2 =>
            lexRun fuel r2 ((st.add_token .Lte "<=" pos start_column).column2) (pos + 2)
        | _ => lexRun fuel cs ((st.add_token .Lt "<" pos start_column).column1) (pos + 1)
      else if ch == '>' then
        match cs with
        | '=' :: r2 =>
            lexRun fuel r2 ((st.add_token .Gte ">=" pos start_column).column2) (pos + 2)
        | _ => lexRun fuel cs ((st.add_token .Gt ">" pos start_column).column1) (pos + 1)
      else if ch == '/' then
        match cs with
        | '/' :: r2 =>
            -- line comment: skip to end of line (the source does not advance
            -- `column` here)
            let rest := r2.dropWhile fun c => c != '\n'
            lexRun fuel rest st (pos + 2 + (r2.length - rest.length))
        | _ => lexRun fuel cs ((st.add_token .Slash "/" pos start_column).column1) (pos + 1)
      else if ch == '#' then
        let rest := cs.dropWhile fun c => c != '\n'
        lexRun fuel rest st (pos + 1 + (cs.length - rest.length))
      else if ch == '"' || ch == singleQuote then
        match lexString ch st cs pos start_column with
        | .error e => .error e
        | .ok rs => lexRun fuel rs.1 rs.2 (pos + (1 + cs.length - rs.1.length))
      else if ch == '$' then
        match lexVariable st cs pos start_column with
        | .error e => .error e
        | .ok rs => lexRun fuel rs.1 rs.2 (pos + (1 + cs.length - rs.1.length))
      else if ch.isDigit then
        let rs := lexNumber ch st cs pos start_column
        lexRun fuel rs.1 rs.2 (pos + (1 + cs.length - rs.1.length))
      else if ch.isAlpha || ch == '_' then
        let rs := lexIdentifier ch st cs pos start_column
        lexRun fuel rs.1 rs.2 (pos + (1 + cs.length - rs.1.length))
      else
        .error (.LexerError ("Unexpected character '" ++ String.mk [ch] ++ "'")
          st.line start_column)

/-- `lexer.rs`: `Lexer::tokenize`. -/
def tokenize (source : String) : Except SELError (List Token) :=
  lexRun (source.length + 1) source.data LexState.init 0

/-- Digit-string value (used by the number parsing helpers). -/
def digitsVal (cs : List Char) : ℕ :=
  cs.foldl (fun a c => a * 10 + (c.toNat - 48)) 0

/-- Rust `str::parse::<f64>().unwrap_or(0.0)` on the number texts the lexer
produces (digits and dots only): exact decimal reading, 0 on malformed input
(several dots, empty integer part). The f64 rounding of long decimals is not
modelled; every literal a verified claim evaluates is exactly representable. -/
def ratOfNumStr (s : String) : ℚ :=
  match s.data.splitOn '.' with
  | [i] => if !i.isEmpty && i.all Char.isDigit then (digitsVal i : ℚ) else 0
  | [i, f] =>
      if !i.isEmpty && i.all Char.isDigit && f.all Char.isDigit then
        (digitsVal i : ℚ) + (digitsVal f : ℚ) / ((10 ^ f.length : ℕ) : ℚ)
      else 0
  | _ => 0

/-- `parser.rs`: `parse_number_with_unit` — split the leading digits/dots
from the alphabetic unit suffix. -/
def parse_number_with_unit (s : String) : ℚ × String :=
  let numChars := s.data.takeWhile fun c => c.isDigit || c == '.'
  let unitChars := s.data.dropWhile fun c => c.isDigit || c == '.'
  (ratOfNumStr (String.mk numChars), String.mk unitChars)

/-- Rust `f64 as u64`: truncation toward zero, negatives saturate to 0. -/
def ratToU64 (q : ℚ) : ℕ := (qTrunc q).toNat

/-- `parser.rs`: `parse_duration`. Note the source quirks kept here: `m`
means minutes, `month` is 30 days, the dead `"today"` arm yields 86400, and
an unknown unit defaults to minutes. -/
def parse_duration (s : String) : ℕ :=
  let nu := parse_number_with_unit s
  let num := ratToU64 nu.1
  match strToLower nu.2 with
  | "s" | "sec" => num
  | "min" | "m" => num * 60
  | "hour" | "h" => num * 3600
  | "day" | "d" => num * 86400
  | "week" | "w" => num * 604800
  | "month" => num * 2592000
  | "today" => 86400
  | _ => num * 60

/-- Rust `str::parse::<u8>().unwrap_or(0)`: value of an all-digit string of
value at most 255, otherwise 0 (also for a missing part). -/
def parseU8 (cs : List Char) : ℕ :=
  if !cs.isEmpty && cs.all Char.isDigit && digitsVal cs ≤ 255 then digitsVal cs else 0

/-- `parser.rs`: `parse_time` (`HH:MM`, each part `parse::<u8>().unwrap_or(0)`). -/
def parse_time (s : String) : ℕ × ℕ :=
  let parts := s.data.splitOn ':'
  (parseU8 (parts.headD []), parseU8 (parts.getD 1 []))

/-- The out-of-bounds token (the source would panic indexing past the `Vec`;
unreachable behind the `Eof` sentinel). -/
def eofToken : Token := ⟨.Eof, "", ⟨1, 1, 0⟩⟩

/-- `parser.rs`: the `Parser` state — token list (newlines filtered out),
cursor, plus the stream of `SystemTime` millisecond readings consumed by
`generate_id` (one reading per call; consecutive readings may repeat, the
clock has millisecond granularity). -/
structure PState where
  tokens : List Token
  current : ℕ
  clocks : List ℕ

/-- `parser.rs`: `Parser::new` (filters `Newline` tokens). -/
def PState.new (tokens : List Token) (clocks : List ℕ) : PState :=
  ⟨tokens.filter fun t => t.kind != .Newline, 0, clocks⟩

/-- `parser.rs`: `peek`. -/
def PState.peek (st : PState) : Token := st.tokens.getD st.current eofToken

/-- `parser.rs`: `is_at_end`. -/
def PState.is_at_end (st : PState) : Bool := st.peek.kind == .Eof

/-- `parser.rs`: `check`. -/
def PState.check (st : PState) (kind : TokenKind) : Bool :=
  !st.is_at_end && st.peek.kind == kind

/-- `parser.rs`: `check_next`. -/
def PState.check_next (st : PState) (kind : TokenKind) : Bool :=
  decide (st.current + 1 < st.tokens.length) &&
    (st.tokens.getD (st.current + 1) eofToken).kind == kind

/-- `parser.rs`: `advance` (returns `tokens[current - 1]` after moving). -/
def PState.advance (st : PState) : Token × PState :=
  if st.is_at_end then (st.tokens.getD (st.current - 1) eofToken, st)
  else (st.tokens.getD st.current eofToken, { st with current := st.current + 1 })

/-- `parser.rs`: `error` (position of the current token). -/
def PState.perror (st : PState) (msg : String) : SELError :=
  .ParserError msg st.peek.location.line st.peek.location.column

/-- `parser.rs`: `consume`. -/
def PState.consume (st : PState) (kind : TokenKind) (msg : String) :
    Except SELError (Token × PState) :=
  if st.check kind then .ok st.advance else .error (st.perror msg)

/-- `parser.rs`: `match_token`. -/
def PState.match_token (st : PState) (kind : TokenKind) : Bool × PState :=
  if st.check kind then (true, st.advance.2) else (false, st)

/-- `parser.rs`: `generate_id` — `format!("rule_{}", millis)` where `millis`
is the next reading of the wall clock's millisecond counter. -/
def PState.genId (st : PState) : String × PState :=
  ("rule_" ++ toString (st.clocks.headD 0), { st with clocks := st.clocks.tail })

/-- `parser.rs`: `value` — one literal token to a `Value`, with the
kW/MW/kWh/MWh multipliers. -/
def pValue (st : PState) : Except SELError (Value × PState) :=
  let ts := st.advance
  let token := ts.1
  let st1 := ts.2
  match token.kind with
  | .Number =>
      let nu := parse_number_with_unit token.value
      match nu.2 with
      | "W" => .ok (.Power nu.1, st1)
      | "kW" => .ok (.Power (nu.1 * 1000), st1)
      | "MW" => .ok (.Power (nu.1 * 1000000), st1)
      | "Wh" => .ok (.Energy nu.1, st1)
      | "kWh" => .ok (.Energy (nu.1 * 1000), st1)
      | "MWh" => .ok (.Energy (nu.1 * 1000000), st1)
      | _ => .ok (.Number nu.1, st1)
  | .Percent => .ok (.Percent (ratOfNumStr token.value), st1)
  | .Duration => .ok (.Duration (parse_duration token.value), st1)
  | .Time =>
      let hm := parse_time token.value
      .ok (.Time hm.1 hm.2, st1)
  | .String => .ok (.String token.value, st1)
  | _ => .error (st1.perror "Expected value")

/-- `parser.rs`: `comparison_op`. -/
def pComparisonOp (st : PState) : Except SELError (ComparisonOp × PState) :=
  let ts := st.advance
  match ts.1.kind with
  | .Eq => .ok (.Equal, ts.2)
  | .Neq => .ok (.NotEqual, ts.2)
  | .Lt => .ok (.LessThan, ts.2)
  | .Lte => .ok (.LessThanOrEqual, ts.2)
  | .Gt => .ok (.GreaterThan, ts.2)
  | .Gte => .ok (.GreaterThanOrEqual, ts.2)
  | _ => .error (ts.2.perror "Expected comparison operator")

mutual

/-- `parser.rs`: `expression` (the fuel bounds recursion depth; the
fuel-exhaustion arm is unreachable for fuel exceeding the remaining token
count, since every recursive descent consumes tokens). -/
def pExpression : ℕ → PState → Except SELError (Expression × PState)
  | 0, st => .error (st.perror "fuel exhausted")
  | fuel + 1, st => pAdditive fuel st

/-- `parser.rs`: `additive` — a `multiplicative` then the `+`/`-` loop. -/
def pAdditive : ℕ → PState → Except SELError (Expression × PState)
  | 0, st => .error (st.perror "fuel exhausted")
  | fuel + 1, st => do
      let (left, st) ← pMultiplicative fuel st
      pAdditiveLoop fuel left st

/-- The `while` loop of `additive`. -/
def pAdditiveLoop : ℕ → Expression → PState → Except SELError (Expression × PState)
  | 0, _, st => .error (st.perror "fuel exhausted")
  | fuel + 1, left, st =>
      if st.check .Plus || st.check .Minus then
        let ts := st.advance
        let op : BinaryOp := if ts.1.kind == .Plus then .Add else .Subtract
        do
          let (right, st) ← pMultiplicative fuel ts.2
          pAdditiveLoop fuel (.Binary op left right) st
      else .ok (left, st)

/-- `parser.rs`: `multiplicative` — a `primary` then the `*`/`/`/`%` loop. -/
def pMultiplicative : ℕ → PState → Except SELError (Expression × PState)
  | 0, st => .error (st.perror "fuel exhausted")
  | fuel + 1, st => do
      let (left, st) ← pPrimary fuel st
      pMultiplicativeLoop fuel left st

/-- The `while` loop of `multiplicative`. -/
def pMultiplicativeLoop : ℕ → Expression → PState → Except SELError (Expression × PState)
  | 0, _, st => .error (st.perror "fuel exhausted")
  | fuel + 1, left, st =>
      if st.check .Star || st.check .Slash || st.check .Modulo then
        let ts := st.advance
        let op : BinaryOp :=
          match ts.1.kind with
          | .Star => .Multiply
          | .Slash => .Divide
          | _ => .Modulo
        do
          let (right, st) ← pPrimary fuel ts.2
          pMultiplicativeLoop fuel (.Binary op left right) st
      else .ok (left, st)

/-- `parser.rs`: `primary` — function call, metric, variable, literal or
parenthesized expression. -/
def pPrimary : ℕ → PState → Except SELError (Expression × PState)
  | 0, st => .error (st.perror "fuel exhausted")
  | fuel + 1, st =>
      if st.check .Function then pFunctionCall fuel st
      else if st.check .Metric then
        let ts := st.advance
        match Metric.from_str ts.1.value with
        | some m => .ok (.Metric m, ts.2)
        | none => .error (ts.2.perror "Unknown metric")
      else if st.check .Variable then
        let ts := st.advance
        .ok (.Variable ts.1.value, ts.2)
      else if st.check .Number || st.check .Percent then do
        let (v, st) ← pValue st
        .ok (.Literal v, st)
      else
        let mt := st.match_token .LParen
        if mt.1 then do
          let (expr, st) ← pExpression fuel mt.2
          let (_, st) ← st.consume .RParen "Expected ')'"
          .ok (expr, st)
        else .error (st.perror "Expected expression")

/-- `parser.rs`: `function_call` — name, `(`, first argument, then either a
duration/identifier period or a second expression argument, `)`. -/
def pFunctionCall : ℕ → PState → Except SELError (Expression × PState)
  | 0, st => .error (st.perror "fuel exhausted")
  | fuel + 1, st => do
      let (nameTok, st) ← st.consume .Function "Expected function"
      match SELFunction.from_str nameTok.value with
      | none => .error (st.perror "Unknown function")
      | some name => do
          let (_, st) ← st.consume .LParen "Expected '('"
          if !st.check .RParen then do
            let (arg1, st) ← pExpression fuel st
            let mt := st.match_token .Comma
            if mt.1 then
              let st := mt.2
              if st.check .Duration || st.check .Identifier then do
                let ts := st.advance
                let (_, st) ← ts.2.consume .RParen "Expected ')'"
                .ok (.Function name [arg1] (some (parse_duration ts.1.value)), st)
              else do
                let (arg2, st) ← pExpression fuel st
                let (_, st) ← st.consume .RParen "Expected ')'"
                .ok (.Function name [arg1, arg2] none, st)
            else do
              let (_, st) ← mt.2.consume .RParen "Expected ')'"
              .ok (.Function name [arg1] none, st)
          else do
            let (_, st) ← st.consume .RParen "Expected ')'"
            .ok (.Function name [] none, st)

end

mutual

/-- `parser.rs`: `condition` (entry of the condition grammar). -/
def pCondition : ℕ → PState → Except SELError (Condition × PState)
  | 0, st => .error (st.perror "fuel exhausted")
  | fuel + 1, st => pOrCondition fuel st

/-- `parser.rs`: `or_condition`. -/
def pOrCondition : ℕ → PState → Except SELError (Condition × PState)
  | 0, st => .error (st.perror "fuel exhausted")
  | fuel + 1, st => do
      let (left, st) ← pAndCondition fuel st
      pOrLoop fuel left st

/-- The `while self.match_token(Or)` loop of `or_condition`. -/
def pOrLoop : ℕ → Condition → PState → Except SELError (Condition × PState)
  | 0, _, st => .error (st.perror "fuel exhausted")
  | fuel + 1, left, st =>
      let mt := st.match_token .Or
      if mt.1 then do
        let (right, st) ← pAndCondition fuel mt.2
        pOrLoop fuel (.Logical .Or [left, right]) st
      else .ok (left, st)

/-- `parser.rs`: `and_condition`. -/
def pAndCondition : ℕ → PState → Except SELError (Condition × PState)
  | 0, st => .error (st.perror "fuel exhausted")
  | fuel + 1, st => do
      let (left, st) ← pUnaryCondition fuel st
      pAndLoop fuel left st

/-- The `while self.match_token(And)` loop of `and_condition`. -/
def pAndLoop : ℕ → Condition → PState → Except SELError (Condition × PState)
  | 0, _, st => .error (st.perror "fuel exhausted")
  | fuel + 1, left, st =>
      let mt := st.match_token .And
      if mt.1 then do
        let (right, st) ← pUnaryCondition fuel mt.2
        pAndLoop fuel (.Logical .And [left, right]) st
      else .ok (left, st)

/-- `parser.rs`: `unary_condition` (`NOT` prefix). -/
def pUnaryCondition : ℕ → PState → Except SELError (Condition × PState)
  | 0, st => .error (st.perror "fuel exhausted")
  | fuel + 1, st =>
      let mt := st.match_token .Not
      if mt.1 then do
        let (cond, st) ← pUnaryCondition fuel mt.2
        .ok (.Logical .Not [cond], st)
      else pPrimaryCondition fuel st

/-- `parser.rs`: `primary_condition` — parenthesized condition, trend,
anomaly (with `IS` consumed even when `UNUSUAL` is absent, as in the
source), or comparison. -/
def pPrimaryCondition : ℕ → PState → Except SELError (Condition × PState)
  | 0, st => .error (st.perror "fuel exhausted")
  | fuel + 1, st =>
      let mt := st.match_token .LParen
      if mt.1 then do
        let (cond, st) ← pCondition fuel mt.2
        let (_, st) ← st.consume .RParen "Expected ')'"
        .ok (cond, st)
      else do
        let (expr, st) ← pExpression fuel st
        if st.check .Rising || st.check .Falling || st.check .Stable then
          let ts := st.advance
          let dir : TrendDirection :=
            match ts.1.kind with
            | .Rising => .Rising
            | .Falling => .Falling
            | _ => .Stable
          match expr with
          | .Metric m => .ok (.Trend m dir none, ts.2)
          | _ => .error (ts.2.perror "Expected metric for trend condition")
        else
          let mtIs := st.match_token .Is
          if mtIs.1 then
            let st := mtIs.2
            let mtUn := st.match_token .Unusual
            if mtUn.1 then do
              let (_, st) ← mtUn.2.consume .Compared "Expected 'COMPARED'"
              let (_, st) ← st.consume .To "Expected 'TO'"
              let pp :=
                if st.check .Duration then
                  let ts := st.advance
                  (parse_duration ts.1.value, ts.2)
                else (86400 * 7, st)
              match expr with
              | .Metric m => .ok (.Anomaly m pp.1 2, pp.2)
              | _ => .error (pp.2.perror "Expected metric for anomaly condition")
            else pComparisonTail fuel expr mtUn.2
          else pComparisonTail fuel expr mtIs.2

/-- The comparison tail of `primary_condition` (`op` then right-hand
expression). -/
def pComparisonTail : ℕ → Expression → PState → Except SELError (Condition × PState)
  | 0, _, st => .error (st.perror "fuel exhausted")
  | fuel + 1, expr, st => do
      let (op, st) ← pComparisonOp st
      let (right, st) ← pExpression fuel st
      .ok (.Comparison expr op right, st)

end

/-- `parser.rs`: `notify_action` — `NOTIFY "string"`, the string stored as a
single-part literal template. -/
def pNotifyAction (st : PState) : Except SELError (SELAction × PState) := do
  let (_, st) ← st.consume .Notify "Expected 'NOTIFY'"
  let (tok, st) ← st.consume .String "Expected message string"
  .ok (.Notify (TemplateString.from_literal tok.value) none none, st)

/-- `parser.rs`: `webhook_action`. -/
def pWebhookAction (st : PState) : Except SELError (SELAction × PState) := do
  let (_, st) ← st.consume .Webhook "Expected 'WEBHOOK'"
  let (tok, st) ← st.consume .String "Expected URL string"
  .ok (.Webhook tok.value none none none, st)

/-- `parser.rs`: `cooldown` — `COOLDOWN <Duration>`. -/
def pCooldown (st : PState) : Except SELError (ℕ × PState) := do
  let (_, st) ← st.consume .Cooldown "Expected 'COOLDOWN'"
  let (tok, st) ← st.consume .Duration "Expected duration"
  .ok (parse_duration tok.value, st)

/-- The indented-block loop of `event_rule` (`NOTIFY`/`WEBHOOK`/`COOLDOWN`
until `Dedent` or end, with `break` on anything else). -/
def pEventBlock : ℕ → PState → List SELAction → Option ℕ →
    Except SELError (List SELAction × Option ℕ × PState)
  | 0, st, _, _ => .error (st.perror "fuel exhausted")
  | fuel + 1, st, actions, cooldown =>
      if !st.check .Dedent && !st.is_at_end then
        if st.check .Notify then do
          let (a, st) ← pNotifyAction st
          pEventBlock fuel st (actions ++ [a]) cooldown
        else if st.check .Webhook then do
          let (a, st) ← pWebhookAction st
          pEventBlock fuel st (actions ++ [a]) cooldown
        else if st.check .Cooldown then do
          let (c, st) ← pCooldown st
          pEventBlock fuel st actions (some c)
        else .ok (actions, cooldown, st)
      else .ok (actions, cooldown, st)

/-- `parser.rs`: `event_rule` — `ON <condition>`, then an indented action
block or the single-line `NOTIFY`/`WEBHOOK`/`COOLDOWN` sequence; the rule id
comes from `generate_id`. -/
def pEventRule (fuel : ℕ) (st : PState) : Except SELError (EventRule × PState) := do
  let (_, st) ← st.consume .On "Expected 'ON'"
  let (condition, st) ← pCondition fuel st
  let (actions, cooldown, st) ←
    if st.check .Indent then do
      let st := st.advance.2
      let (actions, cooldown, st) ← pEventBlock fuel st [] none
      let st := if st.check .Dedent then st.advance.2 else st
      pure (actions, cooldown, st)
    else do
      let (actions, st) ←
        if st.check .Notify then do
          let (a, st) ← pNotifyAction st
          pure ([a], st)
        else pure (([] : List SELAction), st)
      let (actions, st) ←
        if st.check .Webhook then do
          let (a, st) ← pWebhookAction st
          pure (actions ++ [a], st)
        else pure (actions, st)
      let (cooldown, st) ←
        if st.check .Cooldown then do
          let (c, st) ← pCooldown st
          pure (some c, st)
        else pure ((none : Option ℕ), st)
      pure (actions, cooldown, st)
  let ids := st.genId
  .ok (⟨ids.1, none, condition, actions, cooldown, true⟩, ids.2)

/-- `parser.rs`: `schedule` — `<freq> [AT <Time>]`, always yielding a
`Calendar` schedule. Total: the source returns `Ok` on every path. -/
def pSchedule (st : PState) : Schedule × PState :=
  let fo :=
    if st.check .Identifier || st.check .Duration then
      let ts := st.advance
      let text := strToLower ts.1.value
      let fon : CalendarFrequency × Option ℕ :=
        match text with
        | "day" | "daily" => (.Daily, none)
        | "week" | "weekly" => (.Weekly, none)
        | "month" | "monthly" => (.Monthly, none)
        | "monday" => (.Weekly, some 1)
        | "tuesday" => (.Weekly, some 2)
        | "wednesday" => (.Weekly, some 3)
        | "thursday" => (.Weekly, some 4)
        | "friday" => (.Weekly, some 5)
        | "saturday" => (.Weekly, some 6)
        | "sunday" => (.Weekly, some 7)
        | _ => (.Daily, none)
      (fon.1, fon.2, ts.2)
    else (CalendarFrequency.Daily, none, st)
  let mt := fo.2.2.match_token .At
  let att :=
    if mt.1 then
      if mt.2.check .Time then
        let ts := mt.2.advance
        let hm := parse_time ts.1.value
        (TimeOfDay.mk hm.1 hm.2, ts.2)
      else (TimeOfDay.mk 0 0, mt.2)
    else (TimeOfDay.mk 0 0, mt.2)
  (.Calendar ⟨fo.1, att.1, fo.2.1⟩, att.2)

/-- The indented-block loop of `schedule_rule` (`NOTIFY`/`WEBHOOK` only). -/
def pScheduleBlock : ℕ → PState → List SELAction →
    Except SELError (List SELAction × PState)
  | 0, st, _ => .error (st.perror "fuel exhausted")
  | fuel + 1, st, actions =>
      if !st.check .Dedent && !st.is_at_end then
        if st.check .Notify then do
          let (a, st) ← pNotifyAction st
          pScheduleBlock fuel st (actions ++ [a])
        else if st.check .Webhook then do
          let (a, st) ← pWebhookAction st
          pScheduleBlock fuel st (actions ++ [a])
        else .ok (actions, st)
      else .ok (actions, st)

/-- `parser.rs`: `schedule_rule` — `EVERY <schedule>` then an indented action
block or a single `NOTIFY`. -/
def pScheduleRule (fuel : ℕ) (st : PState) : Except SELError (ScheduleRule × PState) := do
  let (_, st) ← st.consume .Every "Expected 'EVERY'"
  let ss := pSchedule st
  let schedule := ss.1
  let st := ss.2
  let (actions, st) ←
    if st.check .Indent then do
      let st := st.advance.2
      let (actions, st) ← pScheduleBlock fuel st []
      let st := if st.check .Dedent then st.advance.2 else st
      pure (actions, st)
    else if st.check .Notify then do
      let (a, st) ← pNotifyAction st
      pure ([a], st)
    else pure (([] : List SELAction), st)
  let ids := st.genId
  .ok (⟨ids.1, none, schedule, actions, true⟩, ids.2)

/-- `parser.rs`: `variable_declaration` — `$name = value`. -/
def pVariableDeclaration (st : PState) : Except SELError (Variable × PState) := do
  let (nameTok, st) ← st.consume .Variable "Expected variable name"
  let (_, st) ← st.consume .Assign "Expected '='"
  let (value, st) ← pValue st
  .ok (⟨nameTok.value, value⟩, st)

/-- `parser.rs`: the top-level `parse` loop — variable declarations, event
rules, schedule rules, and a one-token resync skip; stop at `Eof`. -/
def parseLoop : ℕ → PState → Program → Except SELError Program
  | 0, st, _ => .error (st.perror "fuel exhausted")
  | fuel + 1, st, program =>
      if st.is_at_end then .ok program
      else
        match st.peek.kind with
        | .Variable =>
            if st.check_next .Assign then do
              let (v, st) ← pVariableDeclaration st
              parseLoop fuel st { program with vars := program.vars ++ [v] }
            else parseLoop fuel st.advance.2 program
        | .On => do
            let (r, st) ← pEventRule fuel st
            parseLoop fuel st { program with rules := program.rules ++ [.Event r] }
        | .Every => do
            let (r, st) ← pScheduleRule fuel st
            parseLoop fuel st { program with rules := program.rules ++ [.Schedule r] }
        | .Eof => .ok program
        | _ => parseLoop fuel st.advance.2 program

/-- `parser.rs`: `Parser::parse` on a token list, with the clock-reading
stream for `generate_id`. The fuel is proportional to the token count; every
parser step consumes tokens, so it is never exhausted on these inputs. -/
def parseTokens (tokens : List Token) (clocks : List ℕ) : Except SELError Program :=
  parseLoop (tokens.length * 16 + 16) (PState.new tokens clocks) Program.default

/-- Lexing then parsing of a source text. -/
def parseSource (source : String) (clocks : List ℕ) : Except SELError Program :=
  (tokenize source).bind fun tokens => parseTokens tokens clocks

/-- Lexing then `Parser::value` of the first token, the unit-literal pipeline
of claim C8. -/
def valueFromSource (source : String) : Except SELError Value :=
  (tokenize source).bind fun tokens => (pValue (PState.new tokens [])).map (·.1)

/-- The id of a rule (either variant). -/
def Rule.rid : Rule → String
  | .Event e => e.id
  | .Schedule s => s.id

/-- The token list of the C3 source `ON battery_soc < 20%\nON pv_power > 3kW`. -/
def c3tokens : List Token :=
  [⟨.On, "ON", ⟨1, 1, 0⟩⟩, ⟨.Metric, "battery_soc", ⟨1, 4, 3⟩⟩, ⟨.Lt, "<", ⟨1, 16, 15⟩⟩,
   ⟨.Percent, "20", ⟨1, 18, 17⟩⟩, ⟨.Newline, "\\n", ⟨1, 21, 20⟩⟩,
   ⟨.On, "ON", ⟨2, 1, 21⟩⟩, ⟨.Metric, "pv_power", ⟨2, 4, 24⟩⟩, ⟨.Gt, ">", ⟨2, 13, 33⟩⟩,
   ⟨.Number, "3kW", ⟨2, 15, 35⟩⟩, ⟨.Eof, "", ⟨2, 18, 38⟩⟩]

theorem c3tok_eq : tokenize "ON battery_soc < 20%\nON pv_power > 3kW" = .ok c3tokens := rfl

/-- First parsed rule of the C3 program. -/
def c3rule1 : EventRule :=
  ⟨"rule_0", none, .Comparison (.Metric .BatterySoc) .LessThan (.Literal (.Percent 20)),
    [], none, true⟩

/-- Second parsed rule of the C3 program — with the same id. -/
def c3rule2 : EventRule :=
  ⟨"rule_0", none, .Comparison (.Metric .PvPower) .GreaterThan (.Literal (.Power 3000)),
    [], none, true⟩

/-- The C3 program: both rules carry the id `rule_0`. -/
def c3program : Program := ⟨"1.0", [], [.Event c3rule1, .Event c3rule2]⟩

/-- `c3program` with the power literal kept in the parser's unreduced
arithmetic form (`Rat.mul` does not reduce definitionally through
`Nat.gcd`). -/
def c3programS : Program :=
  ⟨"1.0", [],
    [.Event c3rule1,
     .Event ⟨"rule_0", none,
       .Comparison (.Metric .PvPower) .GreaterThan
         (.Literal (.Power (ratOfNumStr "3" * 1000))), [], none, true⟩]⟩

set_option maxRecDepth 10000 in
theorem c3parse_eqB : Except.bind (Except.ok c3tokens)
    (fun tokens => parseTokens tokens [0, 0]) = .ok c3programS := rfl

theorem c3programS_eq : c3programS = c3program := by
  simp only [c3programS, c3program, c3rule1, c3rule2]
  rw [show ratOfNumStr "3" = (3 : ℚ) from rfl]
  norm_num

/-- C3 (refuted): a two-rule program parsed while both `generate_id` calls
read the same wall-clock millisecond (a sub-millisecond parse, the common
case) assigns both rules the identical id `rule_0`, contradicting the
invariant that rule ids are pairwise distinct within a `Program`. -/
theorem C3_duplicate_rule_ids :
    parseSource "ON battery_soc < 20%\nON pv_power > 3kW" [0, 0] = .ok c3program ∧
    c3program.rules.map Rule.rid = ["rule_0", "rule_0"] :=
  ⟨Eq.trans
      (congrArg (fun r => Except.bind r fun tokens => parseTokens tokens [0, 0]) c3tok_eq)
      (c3parse_eqB.trans (congrArg Except.ok c3programS_eq)),
    rfl⟩

/-- The C4 source program (the `{`/`}` of the template are written `\x7b`,
`\x7d`). -/
def c4src : String := "$t=20%\nON battery_soc < $t\n  NOTIFY \"Low: \x7bbattery_soc\x7d%\""

/-- The token list of `c4src`. -/
def c4tokens : List Token :=
  [⟨.Variable, "t", ⟨1, 1, 0⟩⟩, ⟨.Assign, "=", ⟨1, 3, 2⟩⟩, ⟨.Percent, "20", ⟨1, 4, 3⟩⟩,
   ⟨.Newline, "\\n", ⟨1, 7, 6⟩⟩, ⟨.On, "ON", ⟨2, 1, 7⟩⟩,
   ⟨.Metric, "battery_soc", ⟨2, 4, 10⟩⟩, ⟨.Lt, "<", ⟨2, 16, 22⟩⟩,
   ⟨.Variable, "t", ⟨2, 18, 24⟩⟩, ⟨.Newline, "\\n", ⟨2, 20, 26⟩⟩,
   ⟨.Indent, "", ⟨3, 3, 3⟩⟩, ⟨.Notify, "NOTIFY", ⟨3, 3, 29⟩⟩,
   ⟨.String, "Low: \x7bbattery_soc\x7d%", ⟨3, 10, 36⟩⟩, ⟨.Eof, "", ⟨3, 31, 57⟩⟩]

set_option maxRecDepth 10000 in
theorem c4tok_eq : tokenize c4src = .ok c4tokens := rfl

/-- The parsed C4 rule: the NOTIFY string is stored as a single literal
template part — the `{battery_soc}` placeholder is not parsed. -/
def c4rule : EventRule :=
  ⟨"rule_0", none, .Comparison (.Metric .BatterySoc) .LessThan (.Variable "t"),
    [.Notify (TemplateString.from_literal "Low: \x7bbattery_soc\x7d%") none none],
    none, true⟩

/-- The parsed C4 program. -/
def c4program : Program := ⟨"1.0", [⟨"t", .Percent 20⟩], [.Event c4rule]⟩

set_option maxRecDepth 10000 in
theorem c4parse_eqB : Except.bind (Except.ok c4tokens)
    (fun tokens => parseTokens tokens [0]) = .ok c4program := rfl

theorem c4parse : parseSource c4src [0] = .ok c4program :=
  Eq.trans
    (congrArg (fun r => Except.bind r fun tokens => parseTokens tokens [0]) c4tok_eq)
    c4parse_eqB

/-- The C4 snapshot `{battery_soc: 15}`. -/
def c4metrics : MetricValues := ⟨none, none, some 15, none, none, none, none⟩

set_option maxRecDepth 10000 in
theorem c4eval :
    ((Runtime.new.load_variables c4program).evaluate_event_rule c4rule c4metrics 0 0).2 =
      .ok ⟨"rule_0", true, [.Notify "Low: \x7bbattery_soc\x7d%"], none⟩ := rfl

/-- C4 counterexample: the program parses to a rule whose NOTIFY template is
the single literal part; after `load_variables`, evaluation against
`{battery_soc: 15}` triggers, but the materialized Notify message is the raw
template text `Low: {battery_soc}%`, not `Low: 15%`. This refutes claim C4
as stated. -/
theorem C4_counterexample :
    parseSource c4src [0] = .ok c4program ∧
    ((Runtime.new.load_variables c4program).evaluate_event_rule c4rule c4metrics 0 0).2 =
      .ok ⟨"rule_0", true, [.Notify "Low: \x7bbattery_soc\x7d%"], none⟩ ∧
    "Low: \x7bbattery_soc\x7d%" ≠ "Low: 15%" :=
  ⟨c4parse, c4eval, by decide⟩

/-- C4 (amended): the rule triggers and the materialized Notify message is
the literal template text `Low: {battery_soc}%` (the parser stores NOTIFY
strings as one literal part; placeholders are not interpolated). -/
theorem C4_notify_literal_message :
    parseSource c4src [0] = .ok c4program ∧
    ((Runtime.new.load_variables c4program).evaluate_event_rule c4rule c4metrics 0 0).2 =
      .ok ⟨"rule_0", true, [.Notify "Low: \x7bbattery_soc\x7d%"], none⟩ :=
  ⟨c4parse, c4eval⟩

/-- C8: lexing plus `Parser::value` is exact on unit literals: `1kW` is Power
1000 W, `1MW` Power 1000000 W, `1kWh` Energy 1000 Wh, `30min` Duration 1800 s,
`1day` Duration 86400 s. -/
theorem C8_unit_literals_exact :
    valueFromSource "1kW" = .ok (.Power 1000) ∧
    valueFromSource "1MW" = .ok (.Power 1000000) ∧
    valueFromSource "1kWh" = .ok (.Energy 1000) ∧
    valueFromSource "30min" = .ok (.Duration 1800) ∧
    valueFromSource "1day" = .ok (.Duration 86400) := by
  refine ⟨?_, ?_, ?_, rfl, rfl⟩
  · rw [show valueFromSource "1kW" = .ok (.Power (ratOfNumStr "1" * 1000)) from rfl,
      show ratOfNumStr "1" = (1 : ℚ) from rfl]
    norm_num
  · rw [show valueFromSource "1MW" = .ok (.Power (ratOfNumStr "1" * 1000000)) from rfl,
      show ratOfNumStr "1" = (1 : ℚ) from rfl]
    norm_num
  · rw [show valueFromSource "1kWh" = .ok (.Energy (ratOfNumStr "1" * 1000)) from rfl,
      show ratOfNumStr "1" = (1 : ℚ) from rfl]
    norm_num

/-- C9 counterexample: in `"a\n //x"` the second line's first non-whitespace
content is a `//` comment, yet the lexer emits an `Indent` token for it (the
blank-line skip in `handle_indentation` checks only for `\n` and `#`). This
refutes claim C9 as stated. -/
theorem C9_counterexample :
    (tokenize "a\n //x").map (List.map Token.kind) =
      .ok [.Identifier, .Newline, .Indent, .Eof] ∧
    TokenKind.Indent ∈ [TokenKind.Identifier, TokenKind.Newline, TokenKind.Indent,
      TokenKind.Eof] :=
  ⟨rfl, by decide⟩

/-- C9 (amended): a line whose first non-whitespace character is `#` (a
`#` comment line), or a blank line, leaves the indent stack unchanged and
emits no Indent or Dedent token; a `//` comment line is treated as a content
line for indentation. -/
theorem C9_hash_comment_keeps_stack (st : LexState) (cs : List Char)
    (h : (cs.dropWhile isIndentChar).head? = some '\n' ∨
      (cs.dropWhile isIndentChar).head? = some '#') :
    (handle_indentation st cs).2.indent_stack = st.indent_stack ∧
    (handle_indentation st cs).2.tokens = st.tokens := by
  unfold handle_indentation
  rw [if_pos h]
  exact ⟨rfl, rfl⟩

/-- Witness for C9 (amended) at a concrete input: the line `" #x"`. -/
theorem C9_hash_comment_keeps_stack_witness :
    ((" #x".data.dropWhile isIndentChar).head? = some '\n' ∨
      (" #x".data.dropWhile isIndentChar).head? = some '#') ∧
    (handle_indentation LexState.init " #x".data).2.indent_stack =
      LexState.init.indent_stack ∧
    (handle_indentation LexState.init " #x".data).2.tokens = LexState.init.tokens :=
  ⟨Or.inr (by decide),
    C9_hash_comment_keeps_stack LexState.init " #x".data (Or.inr (by decide))⟩

/-- `Parser::schedule` always constructs a Calendar schedule. -/
theorem pSchedule_calendar (st : PState) : ∃ cal, (pSchedule st).1 = .Calendar cal :=
  ⟨_, rfl⟩

/-- Every schedule rule produced by `schedule_rule` carries a Calendar
schedule. -/
theorem pScheduleRule_calendar (fuel : ℕ) (st : PState) (r : ScheduleRule) (st2 : PState)
    (h : pScheduleRule fuel st = .ok (r, st2)) : ∃ cal, r.schedule = .Calendar cal := by
  unfold pScheduleRule at h
  cases hc : st.consume .Every "Expected 'EVERY'" with
  | error e => rw [hc] at h; simp [bind, Except.bind] at h
  | ok ts =>
      obtain ⟨tok, st1⟩ := ts
      rw [hc] at h
      simp only [bind, Except.bind] at h
      split at h
      · cases hb : pScheduleBlock fuel (pSchedule st1).2.advance.2 [] with
        | error e => rw [hb] at h; simp at h
        | ok pr =>
            rw [hb] at h
            simp only [pure, Except.pure] at h
            obtain ⟨hr, -⟩ := Prod.mk.inj (Except.ok.inj h)
            rw [← hr]
            exact pSchedule_calendar st1
      · split at h
        · cases hb : pNotifyAction (pSchedule st1).2 with
          | error e => rw [hb] at h; simp at h
          | ok pr =>
              rw [hb] at h
              simp only [pure, Except.pure] at h
              obtain ⟨hr, -⟩ := Prod.mk.inj (Except.ok.inj h)
              rw [← hr]
              exact pSchedule_calendar st1
        · obtain ⟨hr, -⟩ := Prod.mk.inj (Except.ok.inj h)
          rw [← hr]
          exact pSchedule_calendar st1

/-- All schedule rules of a program carry Calendar schedules. -/
def calendarOnly (p : Program) : Prop :=
  ∀ r ∈ p.rules, ∀ sr, r = Rule.Schedule sr → ∃ cal, sr.schedule = Schedule.Calendar cal

/-- Appending an event rule preserves `calendarOnly`. -/
theorem calendarOnly_append_event (p : Program) (er : EventRule) (h : calendarOnly p) :
    calendarOnly { p with rules := p.rules ++ [.Event er] } := by
  intro r hr sr hsr
  rcases List.mem_append.mp hr with h1 | h1
  · exact h r h1 sr hsr
  · simp at h1
    subst h1
    cases hsr

/-- Appending a Calendar schedule rule preserves `calendarOnly`. -/
theorem calendarOnly_append_schedule (p : Program) (sr2 : ScheduleRule)
    (hcal : ∃ cal, sr2.schedule = Schedule.Calendar cal) (h : calendarOnly p) :
    calendarOnly { p with rules := p.rules ++ [.Schedule sr2] } := by
  intro r hr sr hsr
  rcases List.mem_append.mp hr with h1 | h1
  · exact h r h1 sr hsr
  · simp at h1
    subst h1
    cases hsr
    exact hcal

/-- Changing the variables preserves `calendarOnly`. -/
theorem calendarOnly_vars (p : Program) (vs : List Variable) (h : calendarOnly p) :
    calendarOnly { p with vars := vs } := h

/-- The top-level parse loop preserves `calendarOnly`. -/
theorem parseLoop_calendar (fuel : ℕ) :
    ∀ (st : PState) (prog res : Program),
      calendarOnly prog → parseLoop fuel st prog = .ok res → calendarOnly res := by
  induction fuel with
  | zero =>
      intro st prog res hinv h
      simp [parseLoop] at h
  | succ fuel ih =>
      intro st prog res hinv h
      rw [parseLoop] at h
      split at h
      · obtain rfl := Except.ok.inj h
        exact hinv
      · split at h
        · -- Variable
          split at h
          · cases hv : pVariableDeclaration st with
            | error e => rw [hv] at h; simp [bind, Except.bind] at h
            | ok pr =>
                rw [hv] at h
                simp only [bind, Except.bind] at h
                exact ih pr.2 _ res (calendarOnly_vars _ _ hinv) h
          · exact ih _ _ res hinv h
        · -- On
          cases hv : pEventRule fuel st with
          | error e => rw [hv] at h; simp [bind, Except.bind] at h
          | ok pr =>
              rw [hv] at h
              simp only [bind, Except.bind] at h
              exact ih pr.2 _ res (calendarOnly_append_event _ _ hinv) h
        · -- Every
          cases hv : pScheduleRule fuel st with
          | error e => rw [hv] at h; simp [bind, Except.bind] at h
          | ok pr =>
              rw [hv] at h
              simp only [bind, Except.bind] at h
              refine ih pr.2 _ res (calendarOnly_append_schedule _ _ ?_ hinv) h
              exact pScheduleRule_calendar fuel st pr.1 pr.2 (by rw [hv])
        · -- Eof
          obtain rfl := Except.ok.inj h
          exact hinv
        · -- resync skip
          exact ih _ _ res hinv h

/-- C10: every Schedule rule in a program produced by `Parser::parse` carries
a Calendar schedule; consequently for such programs `matches_schedule` always
takes its Calendar arm and `check_interval` always returns false — the
scheduler's Interval and Cron branches are unreachable. -/
theorem C10_parser_schedules_calendar (source : String) (clocks : List ℕ)
    (p : Program) (h : parseSource source clocks = .ok p) :
    ∀ r ∈ p.rules, ∀ sr, r = Rule.Schedule sr →
      ∃ cal, sr.schedule = Schedule.Calendar cal ∧
        (∀ now, matches_schedule sr.schedule now = matches_calendar cal now) ∧
        (∀ s ts, Scheduler.check_interval s sr ts = false) := by
  intro r hr sr hsr
  obtain ⟨cal, hcal⟩ : ∃ cal, sr.schedule = Schedule.Calendar cal := by
    rcases htok : tokenize source with e | tokens
    · unfold parseSource at h
      rw [htok] at h
      simp [Except.bind] at h
    · unfold parseSource at h
      rw [htok] at h
      simp only [Except.bind] at h
      have hdef : calendarOnly Program.default := by
        intro r2 hr2 sr2 _
        simp [Program.default] at hr2
      exact parseLoop_calendar _ _ _ p hdef h r hr sr hsr
  refine ⟨cal, hcal, fun now => by rw [hcal]; rfl, fun s ts => ?_⟩
  unfold Scheduler.check_interval
  rw [hcal]
  cases he : sr.enabled <;> simp

/-- Witness source for C10: `EVERY day AT 18:00` with a NOTIFY action. -/
def c10src : String := "EVERY day AT 18:00\n  NOTIFY \"hi\""

/-- The token list of `c10src`. -/
def c10tokens : List Token :=
  [⟨.Every, "EVERY", ⟨1, 1, 0⟩⟩, ⟨.Identifier, "day", ⟨1, 7, 6⟩⟩,
   ⟨.At, "AT", ⟨1, 11, 10⟩⟩, ⟨.Time, "18:00", ⟨1, 14, 13⟩⟩,
   ⟨.Newline, "\\n", ⟨1, 19, 18⟩⟩, ⟨.Indent, "", ⟨2, 3, 3⟩⟩,
   ⟨.Notify, "NOTIFY", ⟨2, 3, 21⟩⟩, ⟨.String, "hi", ⟨2, 10, 28⟩⟩,
   ⟨.Eof, "", ⟨2, 14, 32⟩⟩]

theorem c10tok_eq : tokenize c10src = .ok c10tokens := rfl

/-- The parsed C10 schedule rule. -/
def c10rule : ScheduleRule :=
  ⟨"rule_0", none, .Calendar ⟨.Daily, ⟨18, 0⟩, none⟩,
    [.Notify (TemplateString.from_literal "hi") none none], true⟩

/-- The parsed C10 program. -/
def c10program : Program := ⟨"1.0", [], [.Schedule c10rule]⟩

set_option maxRecDepth 10000 in
theorem c10parse_eqB : Except.bind (Except.ok c10tokens)
    (fun tokens => parseTokens tokens [0]) = .ok c10program := rfl

theorem c10parse : parseSource c10src [0] = .ok c10program :=
  Eq.trans
    (congrArg (fun r => Except.bind r fun tokens => parseTokens tokens [0]) c10tok_eq)
    c10parse_eqB

/-- Witness for C10 at a concrete input. -/
theorem C10_witness :
    parseSource c10src [0] = .ok c10program ∧
    c10rule.schedule = Schedule.Calendar ⟨.Daily, ⟨18, 0⟩, none⟩ ∧
    matches_schedule c10rule.schedule (DateTime.from_timestamp 1705341600) =
      matches_calendar ⟨.Daily, ⟨18, 0⟩, none⟩ (DateTime.from_timestamp 1705341600) ∧
    Scheduler.new.check_interval c10rule 0 = false := by
  obtain ⟨cal, hcal, hms, hci⟩ := C10_parser_schedules_calendar c10src [0] c10program
    c10parse (.Schedule c10rule) (by simp [c10program]) c10rule rfl
  have h2 : Schedule.Calendar cal =
      Schedule.Calendar ⟨.Daily, ⟨18, 0⟩, none⟩ :=
    hcal.symm.trans
      (show c10rule.schedule = Schedule.Calendar ⟨.Daily, ⟨18, 0⟩, none⟩ from rfl)
  have hc := Schedule.Calendar.inj h2
  subst hc
  exact ⟨c10parse, hcal, hms (DateTime.from_timestamp 1705341600),
    hci Scheduler.new 0⟩
